import Mathlib

/-!
Verification of the Coinone SDK (src/sdk.py): a shallow embedding of the
request-signing and response-classification core, with theorems checking the
specification's claims against the code.

Conventions of the embedding:
* Python dicts appearing as JSON values are association lists in insertion
  order (CPython dicts preserve insertion order; keys are unique).
* Python byte strings are lists of natural numbers below 256.
* Library calls of the source (json.dumps, base64.b64encode, hmac, hashlib,
  str.encode) are modelled by executable Lean functions defined here,
  following the documented behaviour of the CPython standard library.
-/

namespace Coinone

/-- JSON values as produced by json.loads / consumed by json.dumps in the
source. Objects are insertion-ordered association lists, mirroring CPython
dicts. Floating-point numbers do not occur in the private-call payloads the
claims quantify over, so numbers are integers here. -/
inductive Json where
  | null : Json
  | bool (b : Bool) : Json
  | num (n : Int) : Json
  | str (s : String) : Json
  | arr (xs : List Json) : Json
  | obj (kvs : List (String × Json)) : Json
deriving Repr

mutual

def jsonDecEq : (a b : Json) → Decidable (a = b)
  | .null, .null => isTrue rfl
  | .null, .bool _ => isFalse nofun
  | .null, .num _ => isFalse nofun
  | .null, .str _ => isFalse nofun
  | .null, .arr _ => isFalse nofun
  | .null, .obj _ => isFalse nofun
  | .bool _, .null => isFalse nofun
  | .bool a, .bool b =>
    match decEq a b with
    | isTrue h => isTrue (h ▸ rfl)
    | isFalse h => isFalse fun hh => h (Json.bool.inj hh)
  | .bool _, .num _ => isFalse nofun
  | .bool _, .str _ => isFalse nofun
  | .bool _, .arr _ => isFalse nofun
  | .bool _, .obj _ => isFalse nofun
  | .num _, .null => isFalse nofun
  | .num _, .bool _ => isFalse nofun
  | .num a, .num b =>
    match decEq a b with
    | isTrue h => isTrue (h ▸ rfl)
    | isFalse h => isFalse fun hh => h (Json.num.inj hh)
  | .num _, .str _ => isFalse nofun
  | .num _, .arr _ => isFalse nofun
  | .num _, .obj _ => isFalse nofun
  | .str _, .null => isFalse nofun
  | .str _, .bool _ => isFalse nofun
  | .str _, .num _ => isFalse nofun
  | .str a, .str b =>
    match decEq a b with
    | isTrue h => isTrue (h ▸ rfl)
    | isFalse h => isFalse fun hh => h (Json.str.inj hh)
  | .str _, .arr _ => isFalse nofun
  | .str _, .obj _ => isFalse nofun
  | .arr _, .null => isFalse nofun
  | .arr _, .bool _ => isFalse nofun
  | .arr _, .num _ => isFalse nofun
  | .arr _, .str _ => isFalse nofun
  | .arr a, .arr b =>
    match jsonListDecEq a b with
    | isTrue h => isTrue (h ▸ rfl)
    | isFalse h => isFalse fun hh => h (Json.arr.inj hh)
  | .arr _, .obj _ => isFalse nofun
  | .obj _, .null => isFalse nofun
  | .obj _, .bool _ => isFalse nofun
  | .obj _, .num _ => isFalse nofun
  | .obj _, .str _ => isFalse nofun
  | .obj _, .arr _ => isFalse nofun
  | .obj a, .obj b =>
    match jsonObjDecEq a b with
    | isTrue h => isTrue (h ▸ rfl)
    | isFalse h => isFalse fun hh => h (Json.obj.inj hh)

def jsonListDecEq : (a b : List Json) → Decidable (a = b)
  | [], [] => isTrue rfl
  | [], _ :: _ => isFalse nofun
  | _ :: _, [] => isFalse nofun
  | x :: xs, y :: ys =>
    match jsonDecEq x y, jsonListDecEq xs ys with
    | isTrue h1, isTrue h2 => isTrue (h1 ▸ h2 ▸ rfl)
    | isFalse h1, _ => isFalse fun hh => h1 (List.cons.inj hh).1
    | _, isFalse h2 => isFalse fun hh => h2 (List.cons.inj hh).2

def jsonObjDecEq : (a b : List (String × Json)) → Decidable (a = b)
  | [], [] => isTrue rfl
  | [], _ :: _ => isFalse nofun
  | _ :: _, [] => isFalse nofun
  | (k, v) :: xs, (k', v') :: ys =>
    match decEq k k', jsonDecEq v v', jsonObjDecEq xs ys with
    | isTrue h0, isTrue h1, isTrue h2 => isTrue (h0 ▸ h1 ▸ h2 ▸ rfl)
    | isFalse h0, _, _ =>
      isFalse fun hh => h0 (congrArg Prod.fst (List.cons.inj hh).1)
    | _, isFalse h1, _ =>
      isFalse fun hh => h1 (congrArg Prod.snd (List.cons.inj hh).1)
    | _, _, isFalse h2 => isFalse fun hh => h2 (List.cons.inj hh).2

end

instance : DecidableEq Json := jsonDecEq

/-- Python dict lookup d.get(k, default): the default is returned only when
the key is absent (a key present with value null still returns null). -/
def pyGetD (m : List (String × Json)) (k : String) (d : Json) : Json :=
  match m with
  | [] => d
  | (k', v) :: rest => if k' = k then v else pyGetD rest k d

/-- Python dict lookup d.get(k): absent keys give Python None, which is the
same value JSON null parses to, so both are Json.null here. -/
def pyGet (m : List (String × Json)) (k : String) : Json :=
  pyGetD m k Json.null

/-- Python dict assignment d[k] = v on a dict with unique keys: replaces the
value in place when the key exists (keeping its position), otherwise appends
the new key at the end of the insertion order. -/
def dictSet : List (String × Json) → String → Json → List (String × Json)
  | [], k, v => [(k, v)]
  | (k', v') :: rest, k, v =>
    if k' = k then (k, v) :: rest else (k', v') :: dictSet rest k v

/-- Decimal digit character. -/
def digitChar (n : Nat) : Char := Char.ofNat (48 + n)

/-- Fuel-driven digit expansion; the fuel dominates the number so the fuel
branch is never hit in natToDigits. -/
def natToDigitsAux : Nat → Nat → List Char
  | 0, n => [digitChar n]
  | fuel + 1, n =>
    if n < 10 then [digitChar n]
    else natToDigitsAux fuel (n / 10) ++ [digitChar (n % 10)]

/-- Decimal rendering of a natural number, matching CPython str(int) for
nonnegative arguments. -/
def natToDigits (n : Nat) : List Char := natToDigitsAux n n

/-- Decimal rendering of an integer, matching CPython str(int) and the way
json.dumps renders int values. -/
def intRepr (n : Int) : String :=
  if n < 0 then String.mk ('-' :: natToDigits n.natAbs)
  else String.mk (natToDigits n.natAbs)

/-- Lowercase hexadecimal digit character, as used by hexdigest() and by the
json module's \uXXXX escapes. -/
def hexDigitChar (n : Nat) : Char :=
  if n < 10 then Char.ofNat (48 + n) else Char.ofNat (97 + (n - 10))

/-- Escaping of one character by json.dumps with ensure_ascii=False: only
the quote, the backslash and control characters below 0x20 are escaped;
everything else, non-ASCII included, is kept verbatim. -/
def escChar (c : Char) : List Char :=
  if c = '"' then ['\\', '"']
  else if c = '\\' then ['\\', '\\']
  else if c = '\n' then ['\\', 'n']
  else if c = '\t' then ['\\', 't']
  else if c = '\r' then ['\\', 'r']
  else if c = Char.ofNat 8 then ['\\', 'b']
  else if c = Char.ofNat 12 then ['\\', 'f']
  else if c.toNat < 32 then
    ['\\', 'u', '0', '0', hexDigitChar (c.toNat / 16), hexDigitChar (c.toNat % 16)]
  else [c]

/-- JSON string literal rendering of json.dumps with ensure_ascii=False. -/
def jsonQuote (s : String) : String :=
  String.mk ('"' :: (s.data.map escChar).flatten ++ ['"'])

mutual

/-- Model of json.dumps(v, separators=(",", ":"), ensure_ascii=False):
compact JSON, insertion order preserved, non-ASCII kept unescaped. -/
def jsonDumps : Json → String
  | .null => "null"
  | .bool true => "true"
  | .bool false => "false"
  | .num n => intRepr n
  | .str s => jsonQuote s
  | .arr xs => "[" ++ dumpsArr xs ++ "]"
  | .obj kvs => "\x7b" ++ dumpsObj kvs ++ "\x7d"

def dumpsArr : List Json → String
  | [] => ""
  | [x] => jsonDumps x
  | x :: y :: xs => jsonDumps x ++ "," ++ dumpsArr (y :: xs)

def dumpsObj : List (String × Json) → String
  | [] => ""
  | [(k, v)] => jsonQuote k ++ ":" ++ jsonDumps v
  | (k, v) :: p :: kvs => jsonQuote k ++ ":" ++ jsonDumps v ++ "," ++ dumpsObj (p :: kvs)

end

/-! UTF-8, modelling str.encode("utf-8") and bytes.decode("utf-8"). -/

/-- UTF-8 encoding of one Unicode scalar value. -/
def utf8EncodeChar (c : Char) : List Nat :=
  let n := c.toNat
  if n < 128 then [n]
  else if n < 2048 then [192 + n / 64, 128 + n % 64]
  else if n < 65536 then [224 + n / 4096, 128 + n / 64 % 64, 128 + n % 64]
  else [240 + n / 262144, 128 + n / 4096 % 64, 128 + n / 64 % 64, 128 + n % 64]

/-- Model of str.encode("utf-8"): the byte string of the text. -/
def utf8Encode (s : String) : List Nat :=
  (s.data.map utf8EncodeChar).flatten

/-- Continuation byte check. -/
def isCont (b : Nat) : Bool := 128 ≤ b && b < 192

/-- Prepend a character under Option. -/
def consChar (c : Char) : Option (List Char) → Option (List Char)
  | some cs => some (c :: cs)
  | none => none

/-- Decode one UTF-8 scalar from the front of a byte list, returning the
character and the remaining bytes; none on malformed input. Overlong forms
are not rejected, which does not matter for the round-trip facts proved
below (encoder output is never overlong). -/
def utf8Step (l : List Nat) : Option (Char × List Nat) :=
  match l with
  | [] => none
  | b :: rest =>
    if b < 128 then some (Char.ofNat b, rest)
    else if b < 192 then none
    else if b < 224 then
      match rest with
      | b1 :: rest' =>
        if isCont b1 then some (Char.ofNat ((b - 192) * 64 + (b1 - 128)), rest')
        else none
      | [] => none
    else if b < 240 then
      match rest with
      | b1 :: b2 :: rest' =>
        if isCont b1 && isCont b2 then
          let n := (b - 224) * 4096 + (b1 - 128) * 64 + (b2 - 128)
          if 55296 ≤ n ∧ n < 57344 then none
          else some (Char.ofNat n, rest')
        else none
      | _ => none
    else if b < 248 then
      match rest with
      | b1 :: b2 :: b3 :: rest' =>
        if isCont b1 && isCont b2 && isCont b3 then
          let n := (b - 240) * 262144 + (b1 - 128) * 4096 + (b2 - 128) * 64 + (b3 - 128)
          if 1114112 ≤ n then none
          else some (Char.ofNat n, rest')
        else none
      | _ => none
    else none

/-- Fuel-driven UTF-8 decoding loop; the fuel bounds the number of decoded
characters, and each step consumes at least one byte, so the byte count is
always enough fuel. -/
def utf8DecodeLoop : Nat → List Nat → Option (List Char)
  | 0, l => if l = [] then some [] else none
  | fuel + 1, l =>
    if l = [] then some []
    else (utf8Step l).bind (fun p => consChar p.1 (utf8DecodeLoop fuel p.2))

/-- UTF-8 decoding of a byte list into characters; none on malformed
input. -/
def utf8DecodeAux (bs : List Nat) : Option (List Char) :=
  utf8DecodeLoop bs.length bs

/-- Model of bytes.decode("utf-8"), as an Option (CPython raises on
malformed input). -/
def utf8DecodeStr (bs : List Nat) : Option String :=
  match utf8DecodeAux bs with
  | some cs => some (String.mk cs)
  | none => none

/-! Base64, modelling base64.b64encode. -/

/-- Base64 alphabet: the ASCII code of the character for a 6-bit group. -/
def sixToChar (k : Nat) : Nat :=
  if k < 26 then 65 + k
  else if k < 52 then 97 + (k - 26)
  else if k < 62 then 48 + (k - 52)
  else if k = 62 then 43
  else 47

/-- Inverse base64 alphabet. -/
def charToSix (c : Nat) : Option Nat :=
  if 65 ≤ c && c ≤ 90 then some (c - 65)
  else if 97 ≤ c && c ≤ 122 then some (c - 97 + 26)
  else if 48 ≤ c && c ≤ 57 then some (c - 48 + 52)
  else if c = 43 then some 62
  else if c = 47 then some 63
  else none

/-- Model of base64.b64encode on a byte list: standard alphabet with
padding; output is a byte list of ASCII codes. -/
def base64Encode : List Nat → List Nat
  | b0 :: b1 :: b2 :: rest =>
    sixToChar (b0 / 4) :: sixToChar (b0 % 4 * 16 + b1 / 16) ::
      sixToChar (b1 % 16 * 4 + b2 / 64) :: sixToChar (b2 % 64) :: base64Encode rest
  | [b0, b1] =>
    [sixToChar (b0 / 4), sixToChar (b0 % 4 * 16 + b1 / 16), sixToChar (b1 % 16 * 4), 61]
  | [b0] => [sixToChar (b0 / 4), sixToChar (b0 % 4 * 16), 61, 61]
  | [] => []

/-- Base64 decoding, inverse of base64Encode; none on malformed input. -/
def base64Decode : List Nat → Option (List Nat)
  | c0 :: c1 :: c2 :: c3 :: rest =>
    match charToSix c0, charToSix c1 with
    | some s0, some s1 =>
      if c2 = 61 then
        if c3 = 61 ∧ rest = [] then some [s0 * 4 + s1 / 16] else none
      else
        match charToSix c2 with
        | some s2 =>
          if c3 = 61 then
            if rest = [] then some [s0 * 4 + s1 / 16, s1 % 16 * 16 + s2 / 4] else none
          else
            match charToSix c3 with
            | some s3 =>
              (base64Decode rest).map
                (fun bs => (s0 * 4 + s1 / 16) :: (s1 % 16 * 16 + s2 / 4) ::
                  (s2 % 4 * 64 + s3) :: bs)
            | none => none
        | none => none
    | _, _ => none
  | [] => some []
  | _ => none

/-! SHA-512 and HMAC-SHA512, modelling hashlib.sha512 and hmac.new(...,
hashlib.sha512) per FIPS 180-4 / RFC 2104. Word size is 64 bits, modelled
as naturals reduced mod 2^64. -/

/-- Word modulus 2^64. -/
def M64 : Nat := 18446744073709551616

/-- Right rotation of a 64-bit word. -/
def rotr (x n : Nat) : Nat := (x / 2 ^ n + x % 2 ^ n * 2 ^ (64 - n)) % M64

/-- Bitwise complement of a 64-bit word. -/
def wnot (x : Nat) : Nat := (M64 - 1) - x % M64

/-- Binary-search step for the integer cube root. -/
def icbrtGo (n : Nat) : Nat → Nat → Nat → Nat
  | lo, _, 0 => lo
  | lo, hi, fuel + 1 =>
    if hi ≤ lo + 1 then lo
    else
      let mid := (lo + hi) / 2
      if mid ^ 3 ≤ n then icbrtGo n mid hi fuel else icbrtGo n lo mid fuel

/-- Integer cube root of numbers below 2^210 (ample for the constants). -/
def icbrt (n : Nat) : Nat := icbrtGo n 0 (2 ^ 70) 80

/-- Binary-search step for the integer square root. -/
def isqrtGo (n : Nat) : Nat → Nat → Nat → Nat
  | lo, _, 0 => lo
  | lo, hi, fuel + 1 =>
    if hi ≤ lo + 1 then lo
    else
      let mid := (lo + hi) / 2
      if mid ^ 2 ≤ n then isqrtGo n mid hi fuel else isqrtGo n lo mid fuel

/-- Integer square root of numbers below 2^140 (ample for the constants). -/
def isqrt (n : Nat) : Nat := isqrtGo n 0 (2 ^ 70) 80

/-- First eighty primes, sources of the SHA-512 constants. -/
def sha512Primes : List Nat :=
  [2, 3, 5, 7, 11, 13, 17, 19, 23, 29, 31, 37, 41, 43, 47, 53, 59, 61, 67, 71,
   73, 79, 83, 89, 97, 101, 103, 107, 109, 113, 127, 131, 137, 139, 149, 151,
   157, 163, 167, 173, 179, 181, 191, 193, 197, 199, 211, 223, 227, 229, 233,
   239, 241, 251, 257, 263, 269, 271, 277, 281, 283, 293, 307, 311, 313, 317,
   331, 337, 347, 349, 353, 359, 367, 373, 379, 383, 389, 397, 401, 409]

/-- Round constants: first 64 bits of the fractional parts of the cube roots
of the first eighty primes. -/
def sha512K : List Nat :=
  sha512Primes.map (fun p => icbrt (p * 2 ^ 192) % M64)

/-- Initial hash value: first 64 bits of the fractional parts of the square
roots of the first eight primes. -/
def sha512H0 : List Nat :=
  (sha512Primes.take 8).map (fun p => isqrt (p * 2 ^ 128) % M64)

/-- Message schedule step: newest word first in the accumulator. -/
def sha512Wstep (ws : List Nat) : Nat :=
  let w2 := ws.getD 1 0
  let w7 := ws.getD 6 0
  let w15 := ws.getD 14 0
  let w16 := ws.getD 15 0
  let s0 := Nat.xor (Nat.xor (rotr w15 1) (rotr w15 8)) (w15 / 2 ^ 7)
  let s1 := Nat.xor (Nat.xor (rotr w2 19) (rotr w2 61)) (w2 / 2 ^ 6)
  (w16 + s0 + w7 + s1) % M64

/-- Extend the (reversed) schedule by the given number of words. -/
def sha512Extend : Nat → List Nat → List Nat
  | 0, ws => ws
  | k + 1, ws => sha512Extend k (sha512Wstep ws :: ws)

/-- One round of the SHA-512 compression function on the eight-word state. -/
def sha512Round (st : List Nat) (kw : Nat × Nat) : List Nat :=
  let a := st.getD 0 0
  let b := st.getD 1 0
  let c := st.getD 2 0
  let d := st.getD 3 0
  let e := st.getD 4 0
  let f := st.getD 5 0
  let g := st.getD 6 0
  let h := st.getD 7 0
  let S1 := Nat.xor (Nat.xor (rotr e 14) (rotr e 18)) (rotr e 41)
  let ch := Nat.xor (Nat.land e f) (Nat.land (wnot e) g)
  let t1 := (h + S1 + ch + kw.1 + kw.2) % M64
  let S0 := Nat.xor (Nat.xor (rotr a 28) (rotr a 34)) (rotr a 39)
  let maj := Nat.xor (Nat.xor (Nat.land a b) (Nat.land a c)) (Nat.land b c)
  let t2 := (S0 + maj) % M64
  [(t1 + t2) % M64, a, b, c, (d + t1) % M64, e, f, g]

/-- Compression of one 16-word block into the running hash. -/
def sha512Compress (H : List Nat) (block : List Nat) : List Nat :=
  let w := (sha512Extend 64 block.reverse).reverse
  let st := (sha512K.zip w).foldl sha512Round H
  (H.zip st).map (fun p => (p.1 + p.2) % M64)

/-- Big-endian assembly of eight bytes into a word. -/
def bytesToWord (bs : List Nat) : Nat :=
  bs.foldl (fun acc b => acc * 256 + b) 0

/-- Split a list into chunks of the given positive size (fuel-driven). -/
def chunksAux (k : Nat) : Nat → List Nat → List (List Nat)
  | 0, _ => []
  | _, [] => []
  | fuel + 1, l => l.take k :: chunksAux k fuel (l.drop k)

/-- Split a byte list into chunks of size k. -/
def chunks (k : Nat) (l : List Nat) : List (List Nat) :=
  chunksAux k l.length l

/-- SHA-512 padding: 0x80, zeros, and the 128-bit big-endian bit length. -/
def sha512Pad (msg : List Nat) : List Nat :=
  let n := msg.length
  let zeros := (128 - (n + 17) % 128) % 128
  let lenBits := n * 8
  msg ++ 128 :: List.replicate zeros 0 ++
    (List.range 16).reverse.map (fun i => lenBits / 256 ^ i % 256)

/-- Big-endian byte expansion of a 64-bit word. -/
def wordToBytes (w : Nat) : List Nat :=
  (List.range 8).reverse.map (fun i => w / 256 ^ i % 256)

/-- Model of hashlib.sha512(msg).digest() on a byte list. -/
def sha512 (msg : List Nat) : List Nat :=
  let blocks := (chunks 128 (sha512Pad msg)).map (fun blk => (chunks 8 blk).map bytesToWord)
  ((blocks.foldl sha512Compress sha512H0).map wordToBytes).flatten

/-- Lowercase hexadecimal rendering of a byte list, modelling hexdigest(). -/
def hexLower (bs : List Nat) : String :=
  String.mk ((bs.map (fun b => [hexDigitChar (b / 16), hexDigitChar (b % 16)])).flatten)

/-- Model of hmac.new(key, msg, hashlib.sha512).digest(): RFC 2104 with a
128-byte block size. -/
def hmacSha512 (key msg : List Nat) : List Nat :=
  let k0 := (if 128 < key.length then sha512 key else key) ++
    List.replicate (128 - (if 128 < key.length then (sha512 key).length else key.length)) 0
  let ipad := k0.map (fun b => Nat.xor b 54)
  let opad := k0.map (fun b => Nat.xor b 92)
  sha512 (opad ++ sha512 (ipad ++ msg))

/-! Python str() and repr(), restricted to the values that can appear as
JSON-decoded error codes. -/

/-- Model of CPython repr() for str, for strings of printable characters
without exotic escapes: quote selection and escaping of the backslash, the
quote, and common control characters. Only the fact that the result starts
with a quote character is relied upon below. -/
def pyReprStr (s : String) : String :=
  let q : Char := if s.data.contains '\'' && !s.data.contains '"' then '"' else '\''
  let esc : Char → List Char := fun c =>
    if c = '\\' then ['\\', '\\']
    else if c = q then ['\\', q]
    else if c = '\n' then ['\\', 'n']
    else if c = '\r' then ['\\', 'r']
    else if c = '\t' then ['\\', 't']
    else if c.toNat < 32 || c.toNat = 127 then
      ['\\', 'x', hexDigitChar (c.toNat / 16), hexDigitChar (c.toNat % 16)]
    else [c]
  String.mk (q :: (s.data.map esc).flatten ++ [q])

mutual

/-- Model of CPython repr() on JSON-decoded values. -/
def pyRepr : Json → String
  | .null => "None"
  | .bool true => "True"
  | .bool false => "False"
  | .num n => intRepr n
  | .str s => pyReprStr s
  | .arr xs => "[" ++ pyReprArr xs ++ "]"
  | .obj kvs => "\x7b" ++ pyReprObj kvs ++ "\x7d"

def pyReprArr : List Json → String
  | [] => ""
  | [x] => pyRepr x
  | x :: y :: xs => pyRepr x ++ ", " ++ pyReprArr (y :: xs)

def pyReprObj : List (String × Json) → String
  | [] => ""
  | [(k, v)] => pyReprStr k ++ ": " ++ pyRepr v
  | (k, v) :: p :: kvs => pyReprStr k ++ ": " ++ pyRepr v ++ ", " ++ pyReprObj (p :: kvs)

end

/-- Model of CPython str() on JSON-decoded values (None from an absent key
included): str of a str is the string itself, of numbers and of None / True
/ False their literals, of lists and dicts their repr. -/
def pyStr : Json → String
  | .str s => s
  | .null => "None"
  | .bool true => "True"
  | .bool false => "False"
  | .num n => intRepr n
  | .arr xs => pyRepr (.arr xs)
  | .obj kvs => pyRepr (.obj kvs)

/-! The client, requests, responses and outcomes (src/sdk.py lines 16-46,
130-164 and 49-66). -/

/-- Exception state of CoinoneAPIError / CoinoneRateLimitError
(src/sdk.py lines 16-26): the class, the message passed to init, and the
code and http_status attributes. Json.null as code models Python None
(the default, and also what an explicit JSON null or j.get of an absent
key produces). -/
structure CoinoneError where
  isRateLimit : Bool
  msg : Json
  code : Json
  httpStatus : Option Nat
deriving Repr, DecidableEq

/-- Result of one call: a returned (body, headers) pair, a raised SDK
exception, or an uncaught Python exception escaping from the SDK code. -/
inductive Outcome where
  | ok (body : Json) (headers : List (String × String)) : Outcome
  | exc (e : CoinoneError) : Outcome
  | crash (name : String) : Outcome
deriving Repr, DecidableEq

/-- One HTTP response as the requests library presents it to the SDK:
status code, the result of resp.json() (none when the body is not valid
JSON, in which case resp.json() raises ValueError), the response headers,
and the text of the requests.HTTPError raised by raise_for_status (used
only in the public path's message). -/
structure HttpResponse where
  status : Nat
  bodyJson : Option Json
  headers : List (String × String)
  errorText : String

/-- One outgoing POST request as built by the SDK: the URL, the body bytes,
and the three headers set in src/sdk.py lines 138-142. -/
structure Request where
  url : String
  body : List Nat
  contentType : String
  payloadHeader : String
  signatureHeader : String

/-- Credential state of the client (src/sdk.py lines 43-44); none models a
Python None argument. -/
structure Client where
  access_token : Option String
  secret_key : Option String

/-- Python truthiness of an optional string: None and the empty string are
falsy. -/
def pyTruthy : Option String → Bool
  | none => false
  | some s => s ≠ ""

/-- Model of bytes.decode("utf-8") where the caller guarantees valid UTF-8
(CPython raises otherwise; the argument below is always base64 output,
which is ASCII). -/
def pyDecodeUtf8 (bs : List Nat) : String :=
  (utf8DecodeStr bs).getD ""

def PUBLIC_BASE_URL : String := "https://api.coinone.co.kr/public/v2"

def PRIVATE_BASE_URL : String := "https://api.coinone.co.kr"

/-- Payload construction of CoinoneClient._encode_payload_v21 (src/sdk.py
lines 115-124), with the str(uuid.uuid4()) result passed in as the nonce
argument: copy params, set access_token and nonce, serialize with
json.dumps(body, separators=(",", ":"), ensure_ascii=False), then
base64-encode the UTF-8 bytes. -/
def encodePayload (token nonce : String) (params : List (String × Json)) : List Nat :=
  let body := dictSet (dictSet params "access_token" (.str token)) "nonce" (.str nonce)
  base64Encode (utf8Encode (jsonDumps (.obj body)))

/-- Signing step of CoinoneClient._sign (src/sdk.py lines 126-128):
hmac.new(self.secret_key.encode("utf-8"), encoded_payload,
hashlib.sha512).hexdigest(). -/
def sign (secretKey : String) (encodedPayload : List Nat) : String :=
  hexLower (hmacSha512 (utf8Encode secretKey) encodedPayload)

/-- Response classification of the private path, src/sdk.py lines 145-164:
raise_for_status (an HTTPError for statuses in [400, 600)), then the JSON
error-body attempt on HTTP errors, then JSON parsing, then the
result == "error" dispatch on error_code. A JSON body that is not a dict
in the HTTP-error branch hits j.get on a non-dict, an AttributeError that
the except ValueError clause does not catch. -/
def classifyPrivate (resp : HttpResponse) : Outcome :=
  if 400 ≤ resp.status ∧ resp.status < 600 then
    match resp.bodyJson with
    | none => .exc ⟨false, .str "HTTP 错误", .null, some resp.status⟩
    | some (.obj m) =>
      .exc ⟨false, pyGetD m "error_msg" (.str "HTTP 错误"), pyGet m "error_code",
        some resp.status⟩
    | some _ => .crash "AttributeError"
  else
    match resp.bodyJson with
    | none => .exc ⟨false, .str "API 返回了无效的 JSON", .null, some resp.status⟩
    | some j =>
      match j with
      | .obj m =>
        if pyGet m "result" = .str "error" then
          if pyStr (pyGet m "error_code") = "4" then
            .exc ⟨true, pyGetD m "error_msg" (.str "请求频率过高"), pyGet m "error_code", none⟩
          else
            .exc ⟨false, pyGetD m "error_msg" (.str "API 错误"), pyGet m "error_code", none⟩
        else .ok j resp.headers
      | _ => .ok j resp.headers

/-- Response handling of the public path CoinoneClient._get, src/sdk.py
lines 52-66: raise_for_status wrapped into a CoinoneAPIError carrying the
HTTPError text, JSON parsing, and the result == "error" check with no
rate-limit special case. -/
def classifyPublic (resp : HttpResponse) : Outcome :=
  if 400 ≤ resp.status ∧ resp.status < 600 then
    .exc ⟨false, .str ("HTTP 错误: " ++ resp.errorText), .null, some resp.status⟩
  else
    match resp.bodyJson with
    | none => .exc ⟨false, .str "API 返回了无效的 JSON", .null, some resp.status⟩
    | some j =>
      match j with
      | .obj m =>
        if pyGet m "result" = .str "error" then
          .exc ⟨false, pyGetD m "error_msg" (.str "API 错误"), pyGet m "error_code", none⟩
        else .ok j resp.headers
      | _ => .ok j resp.headers

/-- CoinoneClient._post_v21 (src/sdk.py lines 130-164). Nondeterminism is
made explicit: nonceGen models str(uuid.uuid4()) as a stream read at the
counter, and respond models the network. The result carries the outcome,
the list of network requests issued, and the final nonce counter, so that
absence of network traffic and of payload construction is observable. -/
def post_v21 (c : Client) (nonceGen : Nat → String) (ctr : Nat) (path : String)
    (params : List (String × Json)) (respond : Request → HttpResponse) :
    Outcome × List Request × Nat :=
  if !pyTruthy c.access_token || !pyTruthy c.secret_key then
    (.exc ⟨false, .str "调用私有 API 需要提供 access_token 和 secret_key", .null, none⟩,
      [], ctr)
  else
    let nonce := nonceGen ctr
    let encoded := encodePayload (c.access_token.getD "") nonce params
    let req : Request :=
      { url := PRIVATE_BASE_URL ++ path
        body := encoded
        contentType := "application/json"
        payloadHeader := pyDecodeUtf8 encoded
        signatureHeader := sign (c.secret_key.getD "") encoded }
    (classifyPrivate (respond req), [req], ctr + 1)

/-! Mutation-level model of _encode_payload_v21 for the frame claim: dicts
live in a store addressed by references, and the source's three statements
(body = dict(params); body[...] = ...; body[...] = ...) act on it. -/

/-- Store of Python dict objects; a reference is an index. -/
structure Store where
  dicts : List (List (String × Json))

/-- Dereference a dict. -/
def Store.read (st : Store) (r : Nat) : List (String × Json) :=
  st.dicts.getD r []

/-- Model of dict(d): allocate a fresh shallow copy, returning its
reference. -/
def Store.alloc (st : Store) (d : List (String × Json)) : Store × Nat :=
  (⟨st.dicts ++ [d]⟩, st.dicts.length)

/-- Model of d[k] = v: in-place update of the referenced dict. -/
def Store.writeKey (st : Store) (r : Nat) (k : String) (v : Json) : Store :=
  ⟨st.dicts.set r (dictSet (st.read r) k v)⟩

/-- CoinoneClient._encode_payload_v21 (src/sdk.py lines 115-124) statement
by statement over the store: body = dict(params); body["access_token"] =
token; body["nonce"] = nonce; json.dumps; base64.b64encode. -/
def encodePayloadSt (st : Store) (paramsRef : Nat) (token nonce : String) :
    Store × List Nat :=
  let (st1, bodyRef) := st.alloc (st.read paramsRef)
  let st2 := st1.writeKey bodyRef "access_token" (.str token)
  let st3 := st2.writeKey bodyRef "nonce" (.str nonce)
  (st3, base64Encode (utf8Encode (jsonDumps (.obj (st3.read bodyRef)))))

/-! JSON parser, the inverse direction of the round-trip claim: a model of
json.loads restricted to what json.dumps emits (no insignificant
whitespace, integer numbers). -/

/-- Hexadecimal digit value. -/
def hexVal (c : Char) : Option Nat :=
  if 48 ≤ c.toNat ∧ c.toNat ≤ 57 then some (c.toNat - 48)
  else if 97 ≤ c.toNat ∧ c.toNat ≤ 102 then some (c.toNat - 97 + 10)
  else if 65 ≤ c.toNat ∧ c.toNat ≤ 70 then some (c.toNat - 65 + 10)
  else none

/-- Decimal digit test. -/
def isDigitCh (c : Char) : Bool := 48 ≤ c.toNat && c.toNat ≤ 57

/-- Prepend a decoded character to a string-body parse result. -/
def consStr (c : Char) : Option (List Char × List Char) → Option (List Char × List Char)
  | some (cs, r) => some (c :: cs, r)
  | none => none

/-- Decode one escape sequence after a backslash, returning the character
and the rest. -/
def escStep (l : List Char) : Option (Char × List Char) :=
  match l with
  | 'n' :: r => some ('\n', r)
  | 't' :: r => some ('\t', r)
  | 'r' :: r => some ('\r', r)
  | 'b' :: r => some (Char.ofNat 8, r)
  | 'f' :: r => some (Char.ofNat 12, r)
  | '"' :: r => some ('"', r)
  | '\\' :: r => some ('\\', r)
  | '/' :: r => some ('/', r)
  | 'u' :: h1 :: h2 :: h3 :: h4 :: r =>
    match hexVal h1, hexVal h2, hexVal h3, hexVal h4 with
    | some a, some b, some c2, some d =>
      let n := ((a * 16 + b) * 16 + c2) * 16 + d
      if 55296 ≤ n ∧ n < 57344 then none
      else some (Char.ofNat n, r)
    | _, _, _, _ => none
  | _ => none

/-- Consume one string-literal item: none as first component signals the
closing quote. -/
def strStep (l : List Char) : Option (Option Char × List Char) :=
  match l with
  | [] => none
  | c :: rest =>
    if c = '"' then some (none, rest)
    else if c = '\\' then
      match escStep rest with
      | some p => some (some p.1, p.2)
      | none => none
    else some (some c, rest)

/-- Fuel-driven string-body parsing loop. -/
def parseStrLoop : Nat → List Char → Option (List Char × List Char)
  | 0, _ => none
  | fuel + 1, l =>
    (strStep l).bind (fun p =>
      match p.1 with
      | none => some ([], p.2)
      | some ch => consStr ch (parseStrLoop fuel p.2))

/-- Parse the body of a string literal after the opening quote, returning
the decoded characters and the input after the closing quote. -/
def parseStrChars (l : List Char) : Option (List Char × List Char) :=
  parseStrLoop l.length l

/-- Accumulating decimal parser: consumes leading digits. -/
def parseDigits : List Char → Nat → Nat × List Char
  | [], acc => (acc, [])
  | c :: rest, acc =>
    if isDigitCh c then parseDigits rest (acc * 10 + (c.toNat - 48)) else (acc, c :: rest)

/-- Parse an integer JSON number (the only numbers json.dumps emits for the
payloads modelled here). -/
def parseNumber : List Char → Option (Json × List Char)
  | [] => none
  | c :: rest =>
    if c = '-' then
      match rest with
      | [] => none
      | c1 :: rest1 =>
        if isDigitCh c1 then
          let p := parseDigits rest1 (c1.toNat - 48)
          some (.num (-(p.1 : Int)), p.2)
        else none
    else if isDigitCh c then
      let p := parseDigits rest (c.toNat - 48)
      some (.num (p.1 : Int), p.2)
    else none

/-- Expect the given literal characters at the front of the input. -/
def expectChars : List Char → List Char → Option (List Char)
  | [], l => some l
  | _ :: _, [] => none
  | p :: ps, c :: cs => if c = p then expectChars ps cs else none

mutual

/-- Parse one JSON value; the fuel bounds the nesting of recursive calls. -/
def parseValue : Nat → List Char → Option (Json × List Char)
  | 0, _ => none
  | fuel + 1, cs =>
    match cs with
    | [] => none
    | c :: rest =>
      if c = 'n' then (expectChars ['u', 'l', 'l'] rest).map (fun r => (.null, r))
      else if c = 't' then (expectChars ['r', 'u', 'e'] rest).map (fun r => (.bool true, r))
      else if c = 'f' then
        (expectChars ['a', 'l', 's', 'e'] rest).map (fun r => (.bool false, r))
      else if c = '"' then
        (parseStrChars rest).map (fun p => (.str (String.mk p.1), p.2))
      else if c = '[' then
        match expectChars [']'] rest with
        | some r => some (.arr [], r)
        | none => (parseElems fuel rest).map (fun p => (.arr p.1, p.2))
      else if c = '{' then
        match expectChars ['}'] rest with
        | some r => some (.obj [], r)
        | none => (parseMembers fuel rest).map (fun p => (.obj p.1, p.2))
      else parseNumber (c :: rest)

/-- Parse one or more array elements and the closing bracket. -/
def parseElems : Nat → List Char → Option (List Json × List Char)
  | 0, _ => none
  | fuel + 1, cs =>
    (parseValue fuel cs).bind (fun p =>
      match p.2 with
      | ',' :: rest' => (parseElems fuel rest').map (fun q => (p.1 :: q.1, q.2))
      | ']' :: rest' => some ([p.1], rest')
      | _ => none)

/-- Parse one or more object members and the closing brace. -/
def parseMembers : Nat → List Char → Option (List (String × Json) × List Char)
  | 0, _ => none
  | fuel + 1, cs =>
    match cs with
    | '"' :: rest =>
      (parseStrChars rest).bind (fun kp =>
        match kp.2 with
        | ':' :: rest2 =>
          (parseValue fuel rest2).bind (fun p =>
            match p.2 with
            | ',' :: rest4 =>
              (parseMembers fuel rest4).map (fun q => ((String.mk kp.1, p.1) :: q.1, q.2))
            | '}' :: rest4 => some ([(String.mk kp.1, p.1)], rest4)
            | _ => none)
        | _ => none)
    | _ => none

end

/-- Model of json.loads on the output language of jsonDumps: the whole
input must be one JSON value. -/
def jsonParse (s : String) : Option Json :=
  match parseValue (s.length + 1) s.data with
  | some (j, []) => some j
  | _ => none

/-- Inverse of encodePayload: base64-decode, UTF-8-decode, JSON-parse, the
decoding pipeline named by the round-trip claim. -/
def decodePayload (bs : List Nat) : Option Json :=
  match base64Decode bs with
  | some bytes =>
    match utf8DecodeStr bytes with
    | some s => jsonParse s
    | none => none
  | none => none

mutual

/-- Fuel consumption bound of parseValue on a rendered value. -/
def fuelFor : Json → Nat
  | .null => 1
  | .bool _ => 1
  | .num _ => 1
  | .str _ => 1
  | .arr xs => 1 + fuelElems xs
  | .obj kvs => 1 + fuelMembers kvs

def fuelElems : List Json → Nat
  | [] => 0
  | x :: xs => 1 + fuelFor x + fuelElems xs

def fuelMembers : List (String × Json) → Nat
  | [] => 0
  | (_, v) :: kvs => 1 + fuelFor v + fuelMembers kvs

end

/-- True when the input does not continue with a decimal digit, so that a
number parse just before it stops exactly there. -/
def headNotDigit : List Char → Bool
  | [] => true
  | c :: _ => !isDigitCh c

/-! Theorems. First, facts about characters and UTF-8. -/

theorem toNat_ofNat_valid (n : Nat) (h : n.isValidChar) : (Char.ofNat n).toNat = n := by
  simp [Char.ofNat, h, Char.ofNatAux, Char.toNat, UInt32.toNat, BitVec.toNat_ofNatLt]

theorem char_toNat_valid (c : Char) : c.toNat < 55296 ∨ (57343 < c.toNat ∧ c.toNat < 1114112) := by
  cases c.valid with
  | inl h => exact Or.inl h
  | inr h => exact Or.inr h

theorem char_eq_of_toNat (a b : Char) (h : a.toNat = b.toNat) : a = b := by
  apply Char.ext
  apply UInt32.eq_of_toBitVec_eq
  apply BitVec.eq_of_toNat_eq
  exact h

theorem ofNat_valid_lt (n : Nat) (h : n < 55296) : (Char.ofNat n).toNat = n :=
  toNat_ofNat_valid n (Or.inl h)

theorem utf8Step_one (n : Nat) (bs : List Nat) (h : n < 128) :
    utf8Step (n :: bs) = some (Char.ofNat n, bs) := by
  simp only [utf8Step]
  rw [if_pos h]

theorem utf8Step_two (n : Nat) (bs : List Nat) (h1 : 128 ≤ n) (h2 : n < 2048) :
    utf8Step ((192 + n / 64) :: (128 + n % 64) :: bs) = some (Char.ofNat n, bs) := by
  simp only [utf8Step]
  rw [if_neg (by omega), if_neg (by omega), if_pos (by omega)]
  have hc : isCont (128 + n % 64) = true := by
    simp only [isCont, Bool.and_eq_true, decide_eq_true_eq]
    omega
  rw [if_pos hc]
  have harith : (192 + n / 64 - 192) * 64 + (128 + n % 64 - 128) = n := by omega
  rw [harith]

theorem utf8Step_three (n : Nat) (bs : List Nat) (h1 : 2048 ≤ n) (h2 : n < 65536)
    (h3 : ¬ (55296 ≤ n ∧ n < 57344)) :
    utf8Step ((224 + n / 4096) :: (128 + n / 64 % 64) :: (128 + n % 64) :: bs) =
      some (Char.ofNat n, bs) := by
  simp only [utf8Step]
  rw [if_neg (by omega), if_neg (by omega), if_neg (by omega), if_pos (by omega)]
  have hc : (isCont (128 + n / 64 % 64) && isCont (128 + n % 64)) = true := by
    simp only [isCont, Bool.and_eq_true, decide_eq_true_eq]
    omega
  rw [if_pos hc]
  have harith : (224 + n / 4096 - 224) * 4096 + (128 + n / 64 % 64 - 128) * 64 +
      (128 + n % 64 - 128) = n := by omega
  rw [harith]
  rw [if_neg (by omega)]

theorem utf8Step_four (n : Nat) (bs : List Nat) (h1 : 65536 ≤ n) (h2 : n < 1114112) :
    utf8Step ((240 + n / 262144) :: (128 + n / 4096 % 64) :: (128 + n / 64 % 64) ::
      (128 + n % 64) :: bs) = some (Char.ofNat n, bs) := by
  simp only [utf8Step]
  rw [if_neg (by omega), if_neg (by omega), if_neg (by omega), if_neg (by omega),
    if_pos (by omega)]
  have hc : (isCont (128 + n / 4096 % 64) && isCont (128 + n / 64 % 64) &&
      isCont (128 + n % 64)) = true := by
    simp only [isCont, Bool.and_eq_true, decide_eq_true_eq]
    omega
  rw [if_pos hc]
  have harith : (240 + n / 262144 - 240) * 262144 + (128 + n / 4096 % 64 - 128) * 4096 +
      (128 + n / 64 % 64 - 128) * 64 + (128 + n % 64 - 128) = n := by omega
  rw [harith]
  rw [if_neg (by omega)]

theorem utf8Step_encodeChar (c : Char) (bs : List Nat) :
    utf8Step (utf8EncodeChar c ++ bs) = some (c, bs) := by
  have hv := char_toNat_valid c
  have hofn : Char.ofNat c.toNat = c := Char.ofNat_toNat c
  by_cases h1 : c.toNat < 128
  · have he : utf8EncodeChar c = [c.toNat] := by simp [utf8EncodeChar, h1]
    rw [he, List.cons_append, List.nil_append, utf8Step_one _ _ h1, hofn]
  · by_cases h2 : c.toNat < 2048
    · have he : utf8EncodeChar c = [192 + c.toNat / 64, 128 + c.toNat % 64] := by
        simp [utf8EncodeChar, h1, h2]
      rw [he]
      simpa [hofn] using utf8Step_two c.toNat bs (by omega) h2
    · by_cases h3 : c.toNat < 65536
      · have he : utf8EncodeChar c =
            [224 + c.toNat / 4096, 128 + c.toNat / 64 % 64, 128 + c.toNat % 64] := by
          simp [utf8EncodeChar, h1, h2, h3]
        rw [he]
        simpa [hofn] using utf8Step_three c.toNat bs (by omega) h3 (by omega)
      · have he : utf8EncodeChar c = [240 + c.toNat / 262144, 128 + c.toNat / 4096 % 64,
            128 + c.toNat / 64 % 64, 128 + c.toNat % 64] := by
          simp [utf8EncodeChar, h1, h2, h3]
        rw [he]
        simpa [hofn] using utf8Step_four c.toNat bs (by omega) (by omega)

theorem utf8EncodeChar_ne_nil (c : Char) : utf8EncodeChar c ≠ [] := by
  simp only [utf8EncodeChar]
  split_ifs <;> simp

theorem utf8DecodeLoop_encode (cs : List Char) (fuel : Nat) (h : cs.length ≤ fuel) :
    utf8DecodeLoop fuel ((cs.map utf8EncodeChar).flatten) = some cs := by
  induction cs generalizing fuel with
  | nil =>
    cases fuel with
    | zero => rfl
    | succ fuel => simp [utf8DecodeLoop]
  | cons c cs ih =>
    cases fuel with
    | zero => simp at h
    | succ fuel =>
      have hne : utf8EncodeChar c ++ (cs.map utf8EncodeChar).flatten ≠ [] := by
        intro hh
        exact utf8EncodeChar_ne_nil c (List.append_eq_nil.mp hh).1
      simp only [List.map_cons, List.flatten_cons, utf8DecodeLoop, if_neg hne]
      rw [utf8Step_encodeChar]
      have hih := ih fuel (by simpa using h)
      simp [Option.bind, consChar, hih]

theorem length_le_flatten_encode (cs : List Char) :
    cs.length ≤ ((cs.map utf8EncodeChar).flatten).length := by
  induction cs with
  | nil => simp
  | cons c cs ih =>
    simp only [List.map_cons, List.flatten_cons, List.length_append, List.length_cons]
    have : 1 ≤ (utf8EncodeChar c).length := by
      cases he : utf8EncodeChar c with
      | nil => exact absurd he (utf8EncodeChar_ne_nil c)
      | cons b bs => simp
    omega

theorem utf8DecodeAux_encode (cs : List Char) :
    utf8DecodeAux ((cs.map utf8EncodeChar).flatten) = some cs :=
  utf8DecodeLoop_encode cs _ (length_le_flatten_encode cs)

theorem utf8Decode_encode (s : String) : utf8DecodeStr (utf8Encode s) = some s := by
  rw [utf8Encode, utf8DecodeStr, utf8DecodeAux_encode]

theorem utf8Encode_injective (s t : String) (h : utf8Encode s = utf8Encode t) : s = t := by
  have hs := utf8Decode_encode s
  rw [h, utf8Decode_encode t] at hs
  exact (Option.some.inj hs).symm

theorem utf8EncodeChar_lt_256 (c : Char) (b : Nat) (hb : b ∈ utf8EncodeChar c) : b < 256 := by
  have hv := char_toNat_valid c
  simp only [utf8EncodeChar] at hb
  split_ifs at hb with h1 h2 h3
  · simp only [List.mem_singleton] at hb
    omega
  · simp only [List.mem_cons, List.mem_singleton, List.not_mem_nil, or_false] at hb
    rcases hb with h | h <;> omega
  · simp only [List.mem_cons, List.mem_singleton, List.not_mem_nil, or_false] at hb
    rcases hb with h | h | h <;> omega
  · simp only [List.mem_cons, List.mem_singleton, List.not_mem_nil, or_false] at hb
    rcases hb with h | h | h | h <;> omega

theorem utf8Encode_lt_256 (s : String) (b : Nat) (hb : b ∈ utf8Encode s) : b < 256 := by
  simp only [utf8Encode, List.mem_flatten, List.mem_map] at hb
  obtain ⟨l, ⟨c, _, rfl⟩, hbl⟩ := hb
  exact utf8EncodeChar_lt_256 c b hbl

theorem utf8DecodeLoop_ascii (bs : List Nat) (fuel : Nat) (h : bs.length ≤ fuel)
    (hb : ∀ b ∈ bs, b < 128) :
    utf8DecodeLoop fuel bs = some (bs.map Char.ofNat) := by
  induction bs generalizing fuel with
  | nil =>
    cases fuel with
    | zero => rfl
    | succ fuel => simp [utf8DecodeLoop]
  | cons b bs ih =>
    cases fuel with
    | zero => simp at h
    | succ fuel =>
      simp only [utf8DecodeLoop, if_neg (List.cons_ne_nil b bs)]
      rw [utf8Step_one b bs (hb b (List.mem_cons_self b bs))]
      have hih := ih fuel (by simpa using h) (fun x hx => hb x (List.mem_cons_of_mem b hx))
      simp [Option.bind, consChar, hih]

theorem utf8DecodeAux_ascii (bs : List Nat) (hb : ∀ b ∈ bs, b < 128) :
    utf8DecodeAux bs = some (bs.map Char.ofNat) :=
  utf8DecodeLoop_ascii bs bs.length le_rfl hb

theorem utf8Encode_ascii (bs : List Nat) (hb : ∀ b ∈ bs, b < 128) :
    utf8Encode (String.mk (bs.map Char.ofNat)) = bs := by
  simp only [utf8Encode]
  induction bs with
  | nil => rfl
  | cons b bs ih =>
    have hb0 : b < 128 := hb b (List.mem_cons_self b bs)
    have henc : utf8EncodeChar (Char.ofNat b) = [b] := by
      have ht : (Char.ofNat b).toNat = b := ofNat_valid_lt b (by omega)
      simp [utf8EncodeChar, ht, hb0]
    simp only [List.map_cons, List.flatten_cons, henc]
    rw [ih (fun x hx => hb x (List.mem_cons_of_mem b hx))]
    rfl

/-! Base64 round trip. -/

theorem sixToChar_bounds :
    ∀ k < 64, sixToChar k < 128 ∧ sixToChar k ≠ 61 ∧ charToSix (sixToChar k) = some k := by
  decide

theorem sixToChar_lt (k : Nat) (h : k < 64) : sixToChar k < 128 :=
  (sixToChar_bounds k h).1

theorem sixToChar_ne_61 (k : Nat) (h : k < 64) : sixToChar k ≠ 61 :=
  (sixToChar_bounds k h).2.1

theorem charToSix_sixToChar (k : Nat) (h : k < 64) : charToSix (sixToChar k) = some k :=
  (sixToChar_bounds k h).2.2

theorem base64Decode_encode (bs : List Nat) (hb : ∀ b ∈ bs, b < 256) :
    base64Decode (base64Encode bs) = some bs := by
  induction bs using base64Encode.induct with
  | case1 b0 b1 b2 rest ih =>
    have h0 : b0 < 256 := hb b0 (by simp)
    have h1 : b1 < 256 := hb b1 (by simp)
    have h2 : b2 < 256 := hb b2 (by simp)
    have hrest : ∀ b ∈ rest, b < 256 := fun b hm => hb b (by simp [hm])
    unfold base64Encode
    rw [base64Decode.eq_1]
    rw [charToSix_sixToChar _ (by omega), charToSix_sixToChar _ (by omega)]
    dsimp only
    rw [if_neg (sixToChar_ne_61 _ (by omega))]
    rw [charToSix_sixToChar _ (by omega)]
    dsimp only
    rw [if_neg (sixToChar_ne_61 _ (by omega))]
    rw [charToSix_sixToChar _ (by omega)]
    dsimp only
    rw [ih hrest]
    have e0 : b0 / 4 * 4 + (b0 % 4 * 16 + b1 / 16) / 16 = b0 := by omega
    have e1 : (b0 % 4 * 16 + b1 / 16) % 16 * 16 + (b1 % 16 * 4 + b2 / 64) / 4 = b1 := by
      omega
    have e2 : (b1 % 16 * 4 + b2 / 64) % 4 * 64 + b2 % 64 = b2 := by omega
    dsimp only [Option.map]
    rw [e0, e1, e2]
  | case2 b0 b1 =>
    have h0 : b0 < 256 := hb b0 (by simp)
    have h1 : b1 < 256 := hb b1 (by simp)
    unfold base64Encode
    rw [base64Decode.eq_1]
    rw [charToSix_sixToChar _ (by omega), charToSix_sixToChar _ (by omega)]
    dsimp only
    rw [if_neg (sixToChar_ne_61 _ (by omega))]
    rw [charToSix_sixToChar _ (by omega)]
    dsimp only
    rw [if_pos rfl, if_pos rfl]
    have e0 : b0 / 4 * 4 + (b0 % 4 * 16 + b1 / 16) / 16 = b0 := by omega
    have e1 : (b0 % 4 * 16 + b1 / 16) % 16 * 16 + b1 % 16 * 4 / 4 = b1 := by omega
    rw [e0, e1]
  | case3 b0 =>
    have h0 : b0 < 256 := hb b0 (by simp)
    unfold base64Encode
    rw [base64Decode.eq_1]
    rw [charToSix_sixToChar _ (by omega), charToSix_sixToChar _ (by omega)]
    dsimp only
    rw [if_pos rfl, if_pos ⟨rfl, rfl⟩]
    have e0 : b0 / 4 * 4 + b0 % 4 * 16 / 16 = b0 := by omega
    rw [e0]
  | case4 => rfl

theorem base64Encode_injective (a b : List Nat) (ha : ∀ x ∈ a, x < 256)
    (hb : ∀ x ∈ b, x < 256) (h : base64Encode a = base64Encode b) : a = b := by
  have h1 := base64Decode_encode a ha
  rw [h, base64Decode_encode b hb] at h1
  exact (Option.some.inj h1).symm

/-! Decimal digits: natToDigits renders, parseDigits and parseNumber read
back. -/

theorem digitChar_toNat (n : Nat) (h : n < 10) : (digitChar n).toNat = 48 + n := by
  rw [digitChar, ofNat_valid_lt]
  omega

theorem natToDigitsAux_digits (fuel : Nat) :
    ∀ n, n ≤ fuel → ∀ c ∈ natToDigitsAux fuel n, 48 ≤ c.toNat ∧ c.toNat ≤ 57 := by
  induction fuel with
  | zero =>
    intro n hn c hc
    interval_cases n
    simp only [natToDigitsAux, List.mem_singleton] at hc
    subst hc
    rw [digitChar_toNat 0 (by omega)]
    omega
  | succ fuel ih =>
    intro n hn c hc
    by_cases h10 : n < 10
    · simp only [natToDigitsAux, if_pos h10, List.mem_singleton] at hc
      subst hc
      rw [digitChar_toNat n h10]
      omega
    · simp only [natToDigitsAux, if_neg h10, List.mem_append, List.mem_singleton] at hc
      rcases hc with h | h
      · exact ih (n / 10) (by omega) c h
      · subst h
        rw [digitChar_toNat (n % 10) (by omega)]
        omega

theorem natToDigitsAux_ne_nil (fuel n : Nat) : natToDigitsAux fuel n ≠ [] := by
  cases fuel with
  | zero => simp [natToDigitsAux]
  | succ fuel =>
    simp only [natToDigitsAux]
    split_ifs <;> simp

theorem natToDigits_digits (n : Nat) : ∀ c ∈ natToDigits n, 48 ≤ c.toNat ∧ c.toNat ≤ 57 :=
  natToDigitsAux_digits n n le_rfl

theorem foldl_digits_value (fuel : Nat) :
    ∀ n acc, n ≤ fuel →
      (natToDigitsAux fuel n).foldl (fun a c => a * 10 + (c.toNat - 48)) acc =
        acc * 10 ^ (natToDigitsAux fuel n).length + n := by
  induction fuel with
  | zero =>
    intro n acc hn
    interval_cases n
    simp only [natToDigitsAux, List.foldl_cons, List.foldl_nil, List.length_singleton]
    rw [digitChar_toNat 0 (by omega)]
    omega
  | succ fuel ih =>
    intro n acc hn
    by_cases h10 : n < 10
    · simp only [natToDigitsAux, if_pos h10, List.foldl_cons, List.foldl_nil,
        List.length_singleton]
      rw [digitChar_toNat n h10]
      omega
    · simp only [natToDigitsAux, if_neg h10, List.foldl_append, List.foldl_cons,
        List.foldl_nil, List.length_append, List.length_singleton]
      rw [ih (n / 10) acc (by omega)]
      rw [digitChar_toNat (n % 10) (by omega)]
      rw [pow_succ]
      have hdm : n / 10 * 10 + n % 10 = n := by omega
      have : (acc * 10 ^ (natToDigitsAux fuel (n / 10)).length + n / 10) * 10 +
          (48 + n % 10 - 48) =
          acc * (10 ^ (natToDigitsAux fuel (n / 10)).length * 10) +
            (n / 10 * 10 + n % 10) := by
        have h48 : 48 + n % 10 - 48 = n % 10 := by omega
        rw [h48]
        ring
      rw [this, hdm]

theorem parseDigits_append (ds : List Char) :
    ∀ (rest : List Char) (acc : Nat), (∀ c ∈ ds, 48 ≤ c.toNat ∧ c.toNat ≤ 57) →
      headNotDigit rest = true →
      parseDigits (ds ++ rest) acc =
        (ds.foldl (fun a c => a * 10 + (c.toNat - 48)) acc, rest) := by
  induction ds with
  | nil =>
    intro rest acc _ hr
    cases rest with
    | nil => rfl
    | cons c rest' =>
      simp only [headNotDigit, Bool.not_eq_true'] at hr
      simp [parseDigits, hr]
  | cons d ds ih =>
    intro rest acc hd hr
    have hdd : 48 ≤ d.toNat ∧ d.toNat ≤ 57 := hd d (List.mem_cons_self d ds)
    have hdig : isDigitCh d = true := by
      simp only [isDigitCh, Bool.and_eq_true, decide_eq_true_eq]
      omega
    simp only [List.cons_append, parseDigits, if_pos hdig, List.foldl_cons]
    exact ih rest (acc * 10 + (d.toNat - 48)) (fun c hc => hd c (List.mem_cons_of_mem d hc)) hr

theorem parseNumber_digits (ds : List Char) (rest : List Char) (hne : ds ≠ [])
    (hd : ∀ c ∈ ds, 48 ≤ c.toNat ∧ c.toNat ≤ 57) (hr : headNotDigit rest = true) :
    parseNumber (ds ++ rest) =
      some (.num ((ds.foldl (fun a c => a * 10 + (c.toNat - 48)) 0 : Nat) : Int), rest) := by
  cases ds with
  | nil => exact absurd rfl hne
  | cons d ds' =>
    have hdd : 48 ≤ d.toNat ∧ d.toNat ≤ 57 := hd d (List.mem_cons_self d ds')
    have hdig : isDigitCh d = true := by
      simp only [isDigitCh, Bool.and_eq_true, decide_eq_true_eq]
      omega
    have hneg : d ≠ '-' := by
      intro hh
      subst hh
      simp at hdd
    simp only [List.cons_append, parseNumber, if_neg hneg, if_pos hdig]
    rw [parseDigits_append ds' rest (d.toNat - 48)
      (fun c hc => hd c (List.mem_cons_of_mem d hc)) hr]
    simp only [List.foldl_cons, Nat.zero_mul, Nat.zero_add]

theorem intRepr_data_nonneg (m : Int) (h : 0 ≤ m) :
    (intRepr m).data = natToDigits m.natAbs := by
  rw [intRepr, if_neg (by omega)]

theorem intRepr_data_neg (m : Int) (h : m < 0) :
    (intRepr m).data = '-' :: natToDigits m.natAbs := by
  rw [intRepr, if_pos h]

theorem foldl_natToDigits (n : Nat) :
    (natToDigits n).foldl (fun a c => a * 10 + (c.toNat - 48)) 0 = n := by
  have h := foldl_digits_value n n 0 le_rfl
  simp only [natToDigits]
  simpa using h

theorem parseNumber_intRepr (m : Int) (rest : List Char) (hr : headNotDigit rest = true) :
    parseNumber ((intRepr m).data ++ rest) = some (.num m, rest) := by
  by_cases hm : 0 ≤ m
  · rw [intRepr_data_nonneg m hm]
    rw [parseNumber_digits (natToDigits m.natAbs) rest
      (natToDigitsAux_ne_nil _ _) (natToDigits_digits _) hr]
    rw [foldl_natToDigits]
    have : ((m.natAbs : Nat) : Int) = m := by omega
    rw [this]
  · rw [intRepr_data_neg m (by omega)]
    obtain ⟨d, ds', hds⟩ : ∃ d ds', natToDigits m.natAbs = d :: ds' := by
      cases hh : natToDigits m.natAbs with
      | nil => exact absurd hh (natToDigitsAux_ne_nil _ _)
      | cons d ds' => exact ⟨d, ds', rfl⟩
    have hd := natToDigits_digits m.natAbs
    rw [hds] at hd
    have hdd : 48 ≤ d.toNat ∧ d.toNat ≤ 57 := hd d (List.mem_cons_self d ds')
    have hdig : isDigitCh d = true := by
      simp only [isDigitCh, Bool.and_eq_true, decide_eq_true_eq]
      omega
    rw [hds]
    simp only [List.cons_append, parseNumber]
    simp only [if_true]
    rw [if_pos hdig]
    rw [parseDigits_append ds' rest (d.toNat - 48)
      (fun c hc => hd c (List.mem_cons_of_mem d hc)) hr]
    dsimp only
    have hv : ds'.foldl (fun a c => a * 10 + (c.toNat - 48)) (d.toNat - 48) = m.natAbs := by
      have h0 := foldl_natToDigits m.natAbs
      rw [hds] at h0
      simpa using h0
    rw [hv]
    have : -((m.natAbs : Nat) : Int) = m := by omega
    rw [this]

theorem natToDigits_injective (a b : Nat) (h : natToDigits a = natToDigits b) : a = b := by
  have ha := parseNumber_intRepr (a : Int) [] rfl
  have hb := parseNumber_intRepr (b : Int) [] rfl
  rw [intRepr_data_nonneg _ (by omega), Int.natAbs_ofNat, List.append_nil] at ha hb
  rw [h, hb] at ha
  have := Option.some.inj ha
  simp only [Prod.mk.injEq, Json.num.injEq] at this
  omega

/-! String literals: escChar renders, strStep / parseStrLoop read back. -/

theorem hexVal_hexDigitChar : ∀ k < 16, hexVal (hexDigitChar k) = some k := by
  decide

theorem strStep_backslash (l : List Char) :
    strStep ('\\' :: l) =
      match escStep l with
      | some p => some (some p.1, p.2)
      | none => none := by
  simp only [strStep]
  rw [if_neg (by decide)]
  simp only [if_true]

theorem strStep_other (c : Char) (r : List Char) (h1 : c ≠ '"') (h2 : c ≠ '\\') :
    strStep (c :: r) = some (some c, r) := by
  simp only [strStep]
  rw [if_neg h1, if_neg h2]

theorem escStep_u (x1 x2 x3 x4 : Char) (r : List Char) :
    escStep ('u' :: x1 :: x2 :: x3 :: x4 :: r) =
      match hexVal x1, hexVal x2, hexVal x3, hexVal x4 with
      | some a, some b, some c2, some d =>
        let n := ((a * 16 + b) * 16 + c2) * 16 + d
        if 55296 ≤ n ∧ n < 57344 then none
        else some (Char.ofNat n, r)
      | _, _, _, _ => none := rfl

theorem strStep_escChar (c : Char) (r : List Char) :
    strStep (escChar c ++ r) = some (some c, r) := by
  by_cases h1 : c = '"'
  · subst h1
    rfl
  · by_cases h2 : c = '\\'
    · subst h2
      rfl
    · by_cases h3 : c = '\n'
      · subst h3
        rfl
      · by_cases h4 : c = '\t'
        · subst h4
          rfl
        · by_cases h5 : c = '\r'
          · subst h5
            rfl
          · by_cases h6 : c = Char.ofNat 8
            · subst h6
              rfl
            · by_cases h7 : c = Char.ofNat 12
              · subst h7
                rfl
              · by_cases h8 : c.toNat < 32
                · have he : escChar c = ['\\', 'u', '0', '0',
                      hexDigitChar (c.toNat / 16), hexDigitChar (c.toNat % 16)] := by
                    simp only [escChar]
                    rw [if_neg h1, if_neg h2, if_neg h3, if_neg h4, if_neg h5, if_neg h6,
                      if_neg h7, if_pos h8]
                  rw [he]
                  have hv1 := hexVal_hexDigitChar (c.toNat / 16) (by omega)
                  have hv2 := hexVal_hexDigitChar (c.toNat % 16) (by omega)
                  simp only [List.cons_append]
                  rw [strStep_backslash, escStep_u]
                  have hz : hexVal '0' = some 0 := by decide
                  rw [hz, hv1, hv2]
                  dsimp only
                  have harith : ((0 * 16 + 0) * 16 + c.toNat / 16) * 16 + c.toNat % 16 =
                      c.toNat := by omega
                  rw [harith]
                  rw [if_neg (by omega)]
                  rw [Char.ofNat_toNat]
                  simp
                · have he : escChar c = [c] := by
                    simp only [escChar]
                    rw [if_neg h1, if_neg h2, if_neg h3, if_neg h4, if_neg h5, if_neg h6,
                      if_neg h7, if_neg h8]
                  rw [he]
                  simp only [List.cons_append, List.nil_append]
                  rw [strStep_other c _ h1 h2]

theorem escChar_ne_nil (c : Char) : escChar c ≠ [] := by
  simp only [escChar]
  split_ifs <;> simp

theorem length_le_flatten_esc (cs : List Char) :
    cs.length ≤ ((cs.map escChar).flatten).length := by
  induction cs with
  | nil => simp
  | cons c cs ih =>
    simp only [List.map_cons, List.flatten_cons, List.length_append, List.length_cons]
    have : 1 ≤ (escChar c).length := by
      cases he : escChar c with
      | nil => exact absurd he (escChar_ne_nil c)
      | cons b bs => simp
    omega

theorem parseStrLoop_render (cs : List Char) :
    ∀ (r : List Char) (fuel : Nat), cs.length + 1 ≤ fuel →
      parseStrLoop fuel ((cs.map escChar).flatten ++ '"' :: r) = some (cs, r) := by
  induction cs with
  | nil =>
    intro r fuel hf
    cases fuel with
    | zero => omega
    | succ fuel =>
      simp only [List.map_nil, List.flatten_nil, List.nil_append, parseStrLoop]
      have hq : strStep ('"' :: r) = some (none, r) := by simp [strStep]
      rw [hq]
      rfl
  | cons c cs ih =>
    intro r fuel hf
    cases fuel with
    | zero => omega
    | succ fuel =>
      simp only [List.map_cons, List.flatten_cons, List.append_assoc, parseStrLoop]
      rw [strStep_escChar]
      have hih := ih r fuel (by simpa using hf)
      simp only [Option.bind, hih, consStr]

theorem parseStrChars_render (cs : List Char) (r : List Char) :
    parseStrChars ((cs.map escChar).flatten ++ '"' :: r) = some (cs, r) := by
  rw [parseStrChars]
  apply parseStrLoop_render
  have h1 := length_le_flatten_esc cs
  simp only [List.length_append, List.length_cons]
  omega

theorem jsonQuote_data (s : String) :
    (jsonQuote s).data = '"' :: ((s.data.map escChar).flatten ++ ['"']) := rfl

/-! JSON values: jsonDumps renders, parseValue reads back. -/

theorem pv_n (fuel : Nat) (t : List Char) :
    parseValue (fuel + 1) ('n' :: t) =
      (expectChars ['u', 'l', 'l'] t).map (fun r => (Json.null, r)) := by
  simp only [parseValue, if_true]

theorem pv_t (fuel : Nat) (t : List Char) :
    parseValue (fuel + 1) ('t' :: t) =
      (expectChars ['r', 'u', 'e'] t).map (fun r => (Json.bool true, r)) := by
  simp only [parseValue, if_true]
  rw [if_neg (by decide)]

theorem pv_f (fuel : Nat) (t : List Char) :
    parseValue (fuel + 1) ('f' :: t) =
      (expectChars ['a', 'l', 's', 'e'] t).map (fun r => (Json.bool false, r)) := by
  simp only [parseValue, if_true]
  rw [if_neg (by decide), if_neg (by decide)]

theorem pv_quote (fuel : Nat) (t : List Char) :
    parseValue (fuel + 1) ('"' :: t) =
      (parseStrChars t).map (fun p => (Json.str (String.mk p.1), p.2)) := by
  simp only [parseValue, if_true]
  rw [if_neg (by decide), if_neg (by decide), if_neg (by decide)]

theorem pv_lbrack (fuel : Nat) (t : List Char) :
    parseValue (fuel + 1) ('[' :: t) =
      (match expectChars [']'] t with
      | some r => some (Json.arr [], r)
      | none => (parseElems fuel t).map (fun p => (Json.arr p.1, p.2))) := by
  simp only [parseValue, if_true]
  rw [if_neg (by decide), if_neg (by decide), if_neg (by decide), if_neg (by decide)]

theorem pv_lbrace (fuel : Nat) (t : List Char) :
    parseValue (fuel + 1) ('{' :: t) =
      (match expectChars ['}'] t with
      | some r => some (Json.obj [], r)
      | none => (parseMembers fuel t).map (fun p => (Json.obj p.1, p.2))) := by
  simp only [parseValue, if_true]
  rw [if_neg (by decide), if_neg (by decide), if_neg (by decide), if_neg (by decide),
    if_neg (by decide)]

theorem pv_digit (fuel : Nat) (c : Char) (t : List Char)
    (h : 48 ≤ c.toNat ∧ c.toNat ≤ 57 ∨ c = '-') :
    parseValue (fuel + 1) (c :: t) = parseNumber (c :: t) := by
  have hn : c ≠ 'n' := by
    intro hh
    subst hh
    revert h
    decide
  have ht : c ≠ 't' := by
    intro hh
    subst hh
    revert h
    decide
  have hf : c ≠ 'f' := by
    intro hh
    subst hh
    revert h
    decide
  have hq : c ≠ '"' := by
    intro hh
    subst hh
    revert h
    decide
  have hlb : c ≠ '[' := by
    intro hh
    subst hh
    revert h
    decide
  have hob : c ≠ '{' := by
    intro hh
    subst hh
    revert h
    decide
  simp only [parseValue]
  rw [if_neg hn, if_neg ht, if_neg hf, if_neg hq, if_neg hlb, if_neg hob]

theorem exp_ull (r : List Char) : expectChars ['u', 'l', 'l'] ('u' :: 'l' :: 'l' :: r) =
    some r := rfl

theorem exp_rue (r : List Char) : expectChars ['r', 'u', 'e'] ('r' :: 'u' :: 'e' :: r) =
    some r := rfl

theorem exp_alse (r : List Char) :
    expectChars ['a', 'l', 's', 'e'] ('a' :: 'l' :: 's' :: 'e' :: r) = some r := rfl

theorem exp_rbrack (r : List Char) : expectChars [']'] (']' :: r) = some r := rfl

theorem exp_rbrace (r : List Char) : expectChars ['}'] ('}' :: r) = some r := rfl

theorem str_data_append (a b : String) : (a ++ b).data = a.data ++ b.data := rfl

theorem dumps_null_data : (jsonDumps .null).data = ['n', 'u', 'l', 'l'] := rfl

theorem dumps_true_data : (jsonDumps (.bool true)).data = ['t', 'r', 'u', 'e'] := rfl

theorem dumps_false_data : (jsonDumps (.bool false)).data = ['f', 'a', 'l', 's', 'e'] := rfl

theorem dumps_num (n : Int) : jsonDumps (.num n) = intRepr n := rfl

theorem dumps_str (s : String) : jsonDumps (.str s) = jsonQuote s := rfl

theorem dumps_arr_data (xs : List Json) :
    (jsonDumps (.arr xs)).data = '[' :: ((dumpsArr xs).data ++ [']']) := rfl

theorem dumps_obj_data (kvs : List (String × Json)) :
    (jsonDumps (.obj kvs)).data = '{' :: ((dumpsObj kvs).data ++ ['}']) := rfl

theorem dumpsArr_nil_data : (dumpsArr []).data = [] := rfl

theorem dumpsObj_nil_data : (dumpsObj []).data = [] := rfl

theorem dumpsArr_single (x : Json) : dumpsArr [x] = jsonDumps x := rfl

theorem dumpsArr_cons_data (x y : Json) (t : List Json) :
    (dumpsArr (x :: y :: t)).data =
      ((jsonDumps x).data ++ [',']) ++ (dumpsArr (y :: t)).data := rfl

theorem dumpsObj_single_data (k : String) (v : Json) :
    (dumpsObj [(k, v)]).data = ((jsonQuote k).data ++ [':']) ++ (jsonDumps v).data := rfl

theorem dumpsObj_cons_data (k : String) (v : Json) (p : String × Json)
    (t : List (String × Json)) :
    (dumpsObj ((k, v) :: p :: t)).data =
      ((((jsonQuote k).data ++ [':']) ++ (jsonDumps v).data) ++ [',']) ++
        (dumpsObj (p :: t)).data := rfl

theorem intRepr_shape (n : Int) :
    ∃ d t, (intRepr n).data = d :: t ∧ (48 ≤ d.toNat ∧ d.toNat ≤ 57 ∨ d = '-') := by
  by_cases hm : 0 ≤ n
  · rw [intRepr_data_nonneg n hm]
    obtain ⟨d, ds', hds⟩ : ∃ d ds', natToDigits n.natAbs = d :: ds' := by
      cases hh : natToDigits n.natAbs with
      | nil => exact absurd hh (natToDigitsAux_ne_nil _ _)
      | cons d ds' => exact ⟨d, ds', rfl⟩
    have hd := natToDigits_digits n.natAbs
    rw [hds] at hd
    exact ⟨d, ds', hds, Or.inl (hd d (List.mem_cons_self d ds'))⟩
  · rw [intRepr_data_neg n (by omega)]
    exact ⟨'-', natToDigits n.natAbs, rfl, Or.inr rfl⟩

/-- The first character of a rendered JSON value is never a closing
bracket, which makes the one-token lookahead of the array branch
deterministic. -/
theorem expect_rbrack_dumps (j : Json) (r : List Char) :
    expectChars [']'] ((jsonDumps j).data ++ r) = none := by
  cases j with
  | null => rfl
  | bool b => cases b <;> rfl
  | str s => rw [dumps_str, jsonQuote_data]; rfl
  | arr xs => rw [dumps_arr_data]; rfl
  | obj kvs => rw [dumps_obj_data]; rfl
  | num n =>
    rw [dumps_num]
    obtain ⟨d, t, hdt, hd⟩ := intRepr_shape n
    rw [hdt]
    simp only [List.cons_append, expectChars]
    rw [if_neg (by intro hh; subst hh; revert hd; decide)]

theorem fuelFor_pos (j : Json) : 1 ≤ fuelFor j := by
  cases j <;> simp [fuelFor]

theorem string_mk_data (s : String) : String.mk s.data = s := rfl

theorem parse_render_all (fuel : Nat) :
    (∀ j rest, fuelFor j ≤ fuel → headNotDigit rest = true →
      parseValue fuel ((jsonDumps j).data ++ rest) = some (j, rest)) ∧
    (∀ xs rest, xs ≠ [] → fuelElems xs ≤ fuel →
      parseElems fuel ((dumpsArr xs).data ++ ']' :: rest) = some (xs, rest)) ∧
    (∀ kvs rest, kvs ≠ [] → fuelMembers kvs ≤ fuel →
      parseMembers fuel ((dumpsObj kvs).data ++ '}' :: rest) = some (kvs, rest)) := by
  induction fuel with
  | zero =>
    refine ⟨?_, ?_, ?_⟩
    · intro j rest hf _
      have := fuelFor_pos j
      omega
    · intro xs rest hne hf
      cases xs with
      | nil => exact absurd rfl hne
      | cons x t =>
        simp only [fuelElems] at hf
        omega
    · intro kvs rest hne hf
      cases kvs with
      | nil => exact absurd rfl hne
      | cons kv t =>
        obtain ⟨k, v⟩ := kv
        simp only [fuelMembers] at hf
        omega
  | succ fuel ih =>
    obtain ⟨ihP, ihQ, ihR⟩ := ih
    refine ⟨?_, ?_, ?_⟩
    · intro j rest hf hr
      cases j with
      | null =>
        rw [dumps_null_data]
        simp only [List.cons_append, List.nil_append]
        rw [pv_n, exp_ull]
        rfl
      | bool b =>
        cases b
        · rw [dumps_false_data]
          simp only [List.cons_append, List.nil_append]
          rw [pv_f, exp_alse]
          rfl
        · rw [dumps_true_data]
          simp only [List.cons_append, List.nil_append]
          rw [pv_t, exp_rue]
          rfl
      | num n =>
        rw [dumps_num]
        obtain ⟨d, t, hdt, hd⟩ := intRepr_shape n
        rw [hdt]
        simp only [List.cons_append]
        rw [pv_digit fuel d _ hd]
        rw [← List.cons_append, ← hdt]
        exact parseNumber_intRepr n rest hr
      | str s =>
        rw [dumps_str, jsonQuote_data]
        simp only [List.cons_append, List.append_assoc, List.singleton_append, List.nil_append]
        rw [pv_quote, parseStrChars_render]
        simp only [Option.map_some']
      | arr xs =>
        simp only [fuelFor] at hf
        rw [dumps_arr_data]
        simp only [List.cons_append, List.append_assoc, List.singleton_append, List.nil_append]
        rw [pv_lbrack]
        cases xs with
        | nil =>
          rw [dumpsArr_nil_data]
          simp only [List.nil_append]
          rw [exp_rbrack]
        | cons x t =>
          have hee : expectChars [']']
              ((dumpsArr (x :: t)).data ++ ']' :: rest) = none := by
            cases t with
            | nil =>
              rw [dumpsArr_single]
              exact expect_rbrack_dumps x _
            | cons y t' =>
              rw [dumpsArr_cons_data]
              simp only [List.append_assoc, List.cons_append]
              exact expect_rbrack_dumps x _
          rw [hee]
          rw [ihQ (x :: t) rest (List.cons_ne_nil x t) (by simp only [fuelElems] at hf ⊢; omega)]
          rfl
      | obj kvs =>
        simp only [fuelFor] at hf
        rw [dumps_obj_data]
        simp only [List.cons_append, List.append_assoc, List.singleton_append, List.nil_append]
        rw [pv_lbrace]
        cases kvs with
        | nil =>
          rw [dumpsObj_nil_data]
          simp only [List.nil_append]
          rw [exp_rbrace]
        | cons kv t =>
          obtain ⟨k, v⟩ := kv
          have hee : expectChars ['}']
              ((dumpsObj ((k, v) :: t)).data ++ '}' :: rest) = none := by
            cases t with
            | nil =>
              rw [dumpsObj_single_data]
              rw [jsonQuote_data]
              rfl
            | cons p t' =>
              rw [dumpsObj_cons_data]
              rw [jsonQuote_data]
              rfl
          rw [hee]
          rw [ihR ((k, v) :: t) rest (List.cons_ne_nil _ t)
            (by simp only [fuelMembers] at hf ⊢; omega)]
          rfl
    · intro xs rest hne hf
      cases xs with
      | nil => exact absurd rfl hne
      | cons x t =>
        simp only [fuelElems] at hf
        simp only [parseElems]
        cases t with
        | nil =>
          rw [dumpsArr_single]
          rw [ihP x (']' :: rest) (by omega) rfl]
          rfl
        | cons y t' =>
          rw [dumpsArr_cons_data]
          simp only [List.append_assoc, List.cons_append, List.singleton_append, List.nil_append]
          rw [ihP x (',' :: ((dumpsArr (y :: t')).data ++ ']' :: rest)) (by omega) rfl]
          have hq := ihQ (y :: t') rest (List.cons_ne_nil y t') (by omega)
          simp only [Option.bind]
          rw [hq]
          rfl
    · intro kvs rest hne hf
      cases kvs with
      | nil => exact absurd rfl hne
      | cons kv t =>
        obtain ⟨k, v⟩ := kv
        simp only [fuelMembers] at hf
        cases t with
        | nil =>
          rw [dumpsObj_single_data, jsonQuote_data]
          simp only [List.append_assoc, List.cons_append, List.singleton_append,
            List.nil_append]
          simp only [parseMembers]
          rw [parseStrChars_render]
          simp only [Option.bind]
          rw [ihP v ('}' :: rest) (by omega) rfl]
          rw [string_mk_data]
          rfl
        | cons p t' =>
          rw [dumpsObj_cons_data, jsonQuote_data]
          simp only [List.append_assoc, List.cons_append, List.singleton_append,
            List.nil_append]
          simp only [parseMembers]
          rw [parseStrChars_render]
          simp only [Option.bind]
          rw [ihP v (',' :: ((dumpsObj (p :: t')).data ++ '}' :: rest)) (by omega) rfl]
          have hm := ihR (p :: t') rest (List.cons_ne_nil p t') (by omega)
          rw [string_mk_data]
          simp only [Option.bind]
          rw [hm]
          rfl

theorem base64Encode_lt_128 (bs : List Nat) (hb : ∀ b ∈ bs, b < 256) :
    ∀ c ∈ base64Encode bs, c < 128 := by
  induction bs using base64Encode.induct with
  | case1 b0 b1 b2 rest ih =>
    have h0 : b0 < 256 := hb b0 (by simp)
    have h1 : b1 < 256 := hb b1 (by simp)
    have h2 : b2 < 256 := hb b2 (by simp)
    have hrest : ∀ b ∈ rest, b < 256 := fun b hm => hb b (by simp [hm])
    unfold base64Encode
    intro c hc
    simp only [List.mem_cons] at hc
    rcases hc with h | h | h | h | h
    · subst h; exact sixToChar_lt _ (by omega)
    · subst h; exact sixToChar_lt _ (by omega)
    · subst h; exact sixToChar_lt _ (by omega)
    · subst h; exact sixToChar_lt _ (by omega)
    · exact ih hrest c h
  | case2 b0 b1 =>
    have h0 : b0 < 256 := hb b0 (by simp)
    have h1 : b1 < 256 := hb b1 (by simp)
    unfold base64Encode
    intro c hc
    simp only [List.mem_cons, List.not_mem_nil, or_false] at hc
    rcases hc with h | h | h | h <;> subst h
    · exact sixToChar_lt _ (by omega)
    · exact sixToChar_lt _ (by omega)
    · exact sixToChar_lt _ (by omega)
    · omega
  | case3 b0 =>
    have h0 : b0 < 256 := hb b0 (by simp)
    unfold base64Encode
    intro c hc
    simp only [List.mem_cons, List.not_mem_nil, or_false] at hc
    rcases hc with h | h | h | h <;> subst h
    · exact sixToChar_lt _ (by omega)
    · exact sixToChar_lt _ (by omega)
    · omega
    · omega
  | case4 =>
    intro c hc
    simp [base64Encode] at hc

theorem intRepr_length_pos (n : Int) : 1 ≤ (intRepr n).data.length := by
  obtain ⟨d, t, hdt, _⟩ := intRepr_shape n
  rw [hdt]
  simp

mutual

theorem fuelFor_le (j : Json) : fuelFor j ≤ (jsonDumps j).data.length := by
  cases j with
  | null =>
    rw [dumps_null_data]
    simp [fuelFor]
  | bool b =>
    cases b <;> simp [fuelFor, dumps_true_data, dumps_false_data]
  | num n =>
    have := intRepr_length_pos n
    simp only [fuelFor, dumps_num]
    omega
  | str s =>
    simp only [fuelFor, dumps_str, jsonQuote_data]
    simp
  | arr xs =>
    have h := fuelElems_le xs
    simp only [fuelFor, dumps_arr_data, List.length_cons, List.length_append,
      List.length_singleton]
    omega
  | obj kvs =>
    have h := fuelMembers_le kvs
    simp only [fuelFor, dumps_obj_data, List.length_cons, List.length_append,
      List.length_singleton]
    omega

theorem fuelElems_le (xs : List Json) : fuelElems xs ≤ (dumpsArr xs).data.length + 1 := by
  cases xs with
  | nil =>
    simp [fuelElems, dumpsArr_nil_data]
  | cons x t =>
    cases t with
    | nil =>
      have h := fuelFor_le x
      simp only [fuelElems, dumpsArr_single]
      omega
    | cons y t' =>
      have h1 := fuelFor_le x
      have h2 := fuelElems_le (y :: t')
      simp only [fuelElems] at h2 ⊢
      rw [dumpsArr_cons_data]
      simp only [List.length_append, List.length_singleton]
      omega

theorem fuelMembers_le (kvs : List (String × Json)) :
    fuelMembers kvs ≤ (dumpsObj kvs).data.length + 1 := by
  cases kvs with
  | nil =>
    simp [fuelMembers, dumpsObj_nil_data]
  | cons kv t =>
    obtain ⟨k, v⟩ := kv
    cases t with
    | nil =>
      have h := fuelFor_le v
      simp only [fuelMembers, dumpsObj_single_data]
      simp only [List.length_append, List.length_singleton]
      omega
    | cons p t' =>
      have h1 := fuelFor_le v
      have h2 := fuelMembers_le (p :: t')
      simp only [fuelMembers] at h2 ⊢
      rw [dumpsObj_cons_data]
      simp only [List.length_append, List.length_singleton]
      omega

end

theorem jsonParse_dumps (j : Json) : jsonParse (jsonDumps j) = some j := by
  rw [jsonParse]
  have hb : fuelFor j ≤ (jsonDumps j).length + 1 := by
    have := fuelFor_le j
    have hl : (jsonDumps j).length = (jsonDumps j).data.length := rfl
    omega
  have hP := (parse_render_all ((jsonDumps j).length + 1)).1 j [] hb rfl
  rw [List.append_nil] at hP
  rw [hP]

theorem jsonDumps_injective (a b : Json) (h : jsonDumps a = jsonDumps b) : a = b := by
  have ha := jsonParse_dumps a
  rw [h, jsonParse_dumps b] at ha
  exact (Option.some.inj ha).symm

theorem decodePayload_encodePayload (token nonce : String)
    (params : List (String × Json)) :
    decodePayload (encodePayload token nonce params) =
      some (.obj (dictSet (dictSet params "access_token" (.str token)) "nonce"
        (.str nonce))) := by
  rw [encodePayload, decodePayload]
  rw [base64Decode_encode _ (fun b hb => utf8Encode_lt_256 _ b hb)]
  dsimp only
  rw [utf8Decode_encode]
  dsimp only
  rw [jsonParse_dumps]

/-! Dict operations. -/

theorem pyGetD_dictSet_same (m : List (String × Json)) (k : String) (v d : Json) :
    pyGetD (dictSet m k v) k d = v := by
  induction m with
  | nil => simp [dictSet, pyGetD]
  | cons kv rest ih =>
    obtain ⟨k', v'⟩ := kv
    by_cases h : k' = k
    · subst h
      simp [dictSet, pyGetD]
    · simp only [dictSet, if_neg h, pyGetD]
      exact ih

theorem dictSet_append (m : List (String × Json)) (k : String) (v : Json)
    (h : k ∉ m.map Prod.fst) :
    dictSet m k v = m ++ [(k, v)] := by
  induction m with
  | nil => rfl
  | cons kv rest ih =>
    obtain ⟨k', v'⟩ := kv
    simp only [List.map_cons, List.mem_cons] at h
    push_neg at h
    have hne : k' ≠ k := fun hh => h.1 hh.symm
    simp only [dictSet, if_neg hne, List.cons_append]
    rw [ih h.2]

/-- Different nonces give different encoded payloads: the nonce value is
recoverable from the payload. -/
theorem encodePayload_nonce_injective (token : String) (n1 n2 : String)
    (params : List (String × Json))
    (h : encodePayload token n1 params = encodePayload token n2 params) : n1 = n2 := by
  have h1 := decodePayload_encodePayload token n1 params
  rw [h, decodePayload_encodePayload token n2 params] at h1
  have h2 := Option.some.inj h1
  have h3 : pyGetD (dictSet (dictSet params "access_token" (.str token)) "nonce"
      (.str n2)) "nonce" .null = pyGetD (dictSet (dictSet params "access_token"
      (.str token)) "nonce" (.str n1)) "nonce" .null := by
    rw [Json.obj.inj h2]
  rw [pyGetD_dictSet_same, pyGetD_dictSet_same] at h3
  exact (Json.str.inj h3).symm

/-! Lengths and byte ranges of the SHA-512 pipeline, and the hexadecimal
rendering. -/

theorem sha512Round_length (st : List Nat) (kw : Nat × Nat) :
    (sha512Round st kw).length = 8 := rfl

theorem foldl_sha512Round_length (l : List (Nat × Nat)) (st : List Nat)
    (h : st.length = 8) : (l.foldl sha512Round st).length = 8 := by
  induction l generalizing st with
  | nil => simpa using h
  | cons kw l ih => exact ih _ (sha512Round_length _ kw)

theorem sha512Compress_length (H block : List Nat) (h : H.length = 8) :
    (sha512Compress H block).length = 8 := by
  rw [sha512Compress]
  have hst := foldl_sha512Round_length (sha512K.zip ((sha512Extend 64 block.reverse).reverse))
    H h
  simp [List.length_zip, h, hst]

theorem sha512H0_length : sha512H0.length = 8 := by
  rw [sha512H0]
  simp [sha512Primes]

theorem foldl_compress_length (blocks : List (List Nat)) (H : List Nat)
    (h : H.length = 8) : (blocks.foldl sha512Compress H).length = 8 := by
  induction blocks generalizing H with
  | nil => simpa using h
  | cons b blocks ih => exact ih _ (sha512Compress_length H b h)

theorem wordToBytes_length (w : Nat) : (wordToBytes w).length = 8 := by
  simp [wordToBytes]

theorem wordToBytes_lt_256 (w : Nat) : ∀ b ∈ wordToBytes w, b < 256 := by
  intro b hb
  simp only [wordToBytes, List.mem_map] at hb
  obtain ⟨i, _, rfl⟩ := hb
  exact Nat.mod_lt _ (by omega)

theorem sum_lengths_eight (l : List (List Nat)) (h : ∀ x ∈ l, x.length = 8) :
    (l.map List.length).sum = 8 * l.length := by
  induction l with
  | nil => simp
  | cons x t ih =>
    simp only [List.map_cons, List.sum_cons, List.length_cons]
    rw [h x (List.mem_cons_self x t), ih (fun y hy => h y (List.mem_cons_of_mem x hy))]
    omega

theorem sha512_length (msg : List Nat) : (sha512 msg).length = 64 := by
  rw [sha512]
  rw [List.length_flatten]
  have hlen := foldl_compress_length
    ((chunks 128 (sha512Pad msg)).map (fun blk => (chunks 8 blk).map bytesToWord))
    sha512H0 sha512H0_length
  set st := ((chunks 128 (sha512Pad msg)).map
    (fun blk => (chunks 8 blk).map bytesToWord)).foldl sha512Compress sha512H0 with hst
  rw [sum_lengths_eight]
  · simp [hlen]
  · intro x hx
    simp only [List.mem_map] at hx
    obtain ⟨w, _, rfl⟩ := hx
    exact wordToBytes_length w

theorem sha512_lt_256 (msg : List Nat) : ∀ b ∈ sha512 msg, b < 256 := by
  intro b hb
  rw [sha512] at hb
  simp only [List.mem_flatten, List.mem_map] at hb
  obtain ⟨l, ⟨w, _, rfl⟩, hbl⟩ := hb
  exact wordToBytes_lt_256 w b hbl

theorem hmacSha512_length (key msg : List Nat) : (hmacSha512 key msg).length = 64 := by
  rw [hmacSha512]
  exact sha512_length _

theorem hmacSha512_lt_256 (key msg : List Nat) : ∀ b ∈ hmacSha512 key msg, b < 256 := by
  rw [hmacSha512]
  exact sha512_lt_256 _

/-! Hexadecimal rendering: length, character set, injectivity. -/

theorem hexDigitChar_lower : ∀ k < 16,
    (48 ≤ (hexDigitChar k).toNat ∧ (hexDigitChar k).toNat ≤ 57) ∨
      (97 ≤ (hexDigitChar k).toNat ∧ (hexDigitChar k).toNat ≤ 102) := by
  decide

theorem hexDigitChar_injective : ∀ a < 16, ∀ b < 16,
    hexDigitChar a = hexDigitChar b → a = b := by
  decide

theorem hexLower_length (bs : List Nat) : (hexLower bs).length = 2 * bs.length := by
  rw [hexLower]
  show ((bs.map fun b => [hexDigitChar (b / 16), hexDigitChar (b % 16)]).flatten).length =
    2 * bs.length
  induction bs with
  | nil => rfl
  | cons b t ih =>
    simp only [List.map_cons, List.flatten_cons, List.length_append, List.length_cons,
      List.length_nil]
    omega

theorem hexLower_chars (bs : List Nat) (h : ∀ b ∈ bs, b < 256) :
    ∀ c ∈ (hexLower bs).data,
      (48 ≤ c.toNat ∧ c.toNat ≤ 57) ∨ (97 ≤ c.toNat ∧ c.toNat ≤ 102) := by
  intro c hc
  have hc' : c ∈ ((bs.map fun b => [hexDigitChar (b / 16), hexDigitChar (b % 16)]).flatten) :=
    hc
  simp only [List.mem_flatten, List.mem_map] at hc'
  obtain ⟨l, ⟨b, hb, rfl⟩, hcl⟩ := hc'
  have hb256 := h b hb
  simp only [List.mem_cons, List.mem_singleton, List.not_mem_nil, or_false] at hcl
  rcases hcl with hh | hh <;> subst hh
  · exact hexDigitChar_lower (b / 16) (by omega)
  · exact hexDigitChar_lower (b % 16) (by omega)

theorem hexLower_injective (a : List Nat) : ∀ (b : List Nat), (∀ x ∈ a, x < 256) →
    (∀ x ∈ b, x < 256) → hexLower a = hexLower b → a = b := by
  induction a with
  | nil =>
    intro b _ _ h
    cases b with
    | nil => rfl
    | cons y u =>
      exfalso
      have h2 : ([] : List Char) = hexDigitChar (y / 16) :: hexDigitChar (y % 16) ::
          ((u.map fun z => [hexDigitChar (z / 16), hexDigitChar (z % 16)]).flatten) :=
        congrArg String.data h
      simp at h2
  | cons x t ih =>
    intro b ha hb h
    cases b with
    | nil =>
      exfalso
      have h2 : hexDigitChar (x / 16) :: hexDigitChar (x % 16) ::
          ((t.map fun z => [hexDigitChar (z / 16), hexDigitChar (z % 16)]).flatten) =
          ([] : List Char) := congrArg String.data h
      simp at h2
    | cons y u =>
      have h2 : hexDigitChar (x / 16) :: hexDigitChar (x % 16) ::
          ((t.map fun z => [hexDigitChar (z / 16), hexDigitChar (z % 16)]).flatten) =
          hexDigitChar (y / 16) :: hexDigitChar (y % 16) ::
          ((u.map fun z => [hexDigitChar (z / 16), hexDigitChar (z % 16)]).flatten) :=
        congrArg String.data h
      simp only [List.cons.injEq] at h2
      obtain ⟨e1, e2, e3⟩ := h2
      have hx := ha x (List.mem_cons_self x t)
      have hy := hb y (List.mem_cons_self y u)
      have hd1 := hexDigitChar_injective (x / 16) (by omega) (y / 16) (by omega) e1
      have hd2 := hexDigitChar_injective (x % 16) (by omega) (y % 16) (by omega) e2
      have hxy : x = y := by omega
      subst hxy
      have heq : hexLower t = hexLower u := congrArg String.mk e3
      rw [ih u (fun z hz => ha z (List.mem_cons_of_mem x hz))
        (fun z hz => hb z (List.mem_cons_of_mem x hz)) heq]

/-! Frame property of the store-level payload construction. -/

theorem encodePayloadSt_frame (st : Store) (r : Nat) (token nonce : String)
    (hr : r < st.dicts.length) :
    (encodePayloadSt st r token nonce).1.read r = st.read r ∧
    (encodePayloadSt st r token nonce).2 = encodePayload token nonce (st.read r) := by
  have hb : st.dicts.length ≠ r := by omega
  simp only [encodePayloadSt, Store.alloc, Store.writeKey, Store.read]
  have hgc : ∀ d : List (String × Json), (st.dicts ++ [d]).getD st.dicts.length [] = d := by
    intro d
    rw [List.getD_eq_getElem?_getD, List.getElem?_concat_length]
    rfl
  have hgs : ∀ (l : List (List (String × Json))) (x : List (String × Json)),
      st.dicts.length < l.length → (l.set st.dicts.length x).getD st.dicts.length [] = x := by
    intro l x h
    rw [List.getD_eq_getElem?_getD, List.getElem?_set_self h]
    rfl
  rw [hgc]
  rw [hgs _ _ (by simp)]
  rw [hgs _ _ (by simp)]
  constructor
  · rw [List.getD_eq_getElem?_getD, List.getElem?_set_ne hb, List.getElem?_set_ne hb,
      List.getElem?_append_left hr, ← List.getD_eq_getElem?_getD]
  · simp only [encodePayload]

/-! ASCII texts survive the decode-encode pair, giving the equality between
the transmitted body and the UTF-8 bytes of the payload header. -/

theorem utf8Encode_pyDecodeUtf8 (bs : List Nat) (h : ∀ b ∈ bs, b < 128) :
    utf8Encode (pyDecodeUtf8 bs) = bs := by
  rw [pyDecodeUtf8, utf8DecodeStr, utf8DecodeAux_ascii bs h]
  exact utf8Encode_ascii bs h

/-! Pigeonhole: over unboundedly many nonces, two distinct nonce strings
with the same HMAC digest exist, so distinct payloads cannot guarantee
distinct signatures. -/

def packBytes : List Nat → Nat
  | [] => 0
  | b :: t => b + 256 * packBytes t

theorem packBytes_lt (l : List Nat) (h : ∀ b ∈ l, b < 256) :
    packBytes l < 256 ^ l.length := by
  induction l with
  | nil => simp [packBytes]
  | cons b t ih =>
    have hb := h b (List.mem_cons_self b t)
    have ht := ih (fun x hx => h x (List.mem_cons_of_mem b hx))
    simp only [packBytes, List.length_cons, pow_succ]
    calc b + 256 * packBytes t < 256 + 256 * packBytes t := by omega
    _ ≤ 256 * (packBytes t + 1) := by ring_nf; omega
    _ ≤ 256 * 256 ^ t.length := by
        have : packBytes t + 1 ≤ 256 ^ t.length := ht
        exact Nat.mul_le_mul_left 256 this
    _ = 256 ^ t.length * 256 := by ring

theorem packBytes_injective (a : List Nat) : ∀ (b : List Nat), (∀ x ∈ a, x < 256) →
    (∀ x ∈ b, x < 256) → a.length = b.length → packBytes a = packBytes b → a = b := by
  induction a with
  | nil =>
    intro b _ _ hlen _
    cases b with
    | nil => rfl
    | cons y u => simp at hlen
  | cons x t ih =>
    intro b ha hb hlen hp
    cases b with
    | nil => simp at hlen
    | cons y u =>
      simp only [packBytes] at hp
      have hx := ha x (List.mem_cons_self x t)
      have hy := hb y (List.mem_cons_self y u)
      have hxy : x = y ∧ packBytes t = packBytes u := by
        constructor
        · omega
        · omega
      obtain ⟨h1, h2⟩ := hxy
      subst h1
      rw [ih u (fun z hz => ha z (List.mem_cons_of_mem x hz))
        (fun z hz => hb z (List.mem_cons_of_mem x hz)) (by simpa using hlen) h2]

/-- The natural written in decimal, an injection of Nat into nonce
strings. -/
def natNonce (k : Nat) : String := String.mk (natToDigits k)

theorem natNonce_injective (a b : Nat) (h : natNonce a = natNonce b) : a = b :=
  natToDigits_injective a b (congrArg String.data h)

set_option maxHeartbeats 3000000 in
theorem hmac_nonce_collision (sk t : String) (P : List (String × Json)) :
    ∃ n1 n2 : String, n1 ≠ n2 ∧
      hmacSha512 (utf8Encode sk) (encodePayload t n1 P) =
        hmacSha512 (utf8Encode sk) (encodePayload t n2 P) := by
  have hpack : ∀ k : Nat,
      packBytes (hmacSha512 (utf8Encode sk) (encodePayload t (natNonce k) P)) <
        256 ^ 64 := by
    intro k
    have h1 := packBytes_lt (hmacSha512 (utf8Encode sk) (encodePayload t (natNonce k) P))
      (hmacSha512_lt_256 _ _)
    rw [hmacSha512_length] at h1
    exact h1
  obtain ⟨k1, k2, hne, heq⟩ := Finite.exists_ne_map_eq_of_infinite
    (fun k : Nat => (⟨packBytes (hmacSha512 (utf8Encode sk)
      (encodePayload t (natNonce k) P)), hpack k⟩ : Fin (256 ^ 64)))
  refine ⟨natNonce k1, natNonce k2, fun hh => hne (natNonce_injective _ _ hh), ?_⟩
  have heq2 : packBytes (hmacSha512 (utf8Encode sk) (encodePayload t (natNonce k1) P)) =
      packBytes (hmacSha512 (utf8Encode sk) (encodePayload t (natNonce k2) P)) := by
    exact congrArg Fin.val heq
  exact packBytes_injective _ _ (hmacSha512_lt_256 _ _) (hmacSha512_lt_256 _ _)
    (by rw [hmacSha512_length, hmacSha512_length]) heq2

/-! Unfolding lemmas for post_v21 and the response classifiers. -/

theorem post_v21_no_creds (c : Client) (gen : Nat → String) (ctr : Nat) (path : String)
    (params : List (String × Json)) (respond : Request → HttpResponse)
    (h : pyTruthy c.access_token = false ∨ pyTruthy c.secret_key = false) :
    post_v21 c gen ctr path params respond =
      (.exc ⟨false, .str "调用私有 API 需要提供 access_token 和 secret_key", .null, none⟩,
        [], ctr) := by
  rw [post_v21, if_pos]
  rcases h with h | h <;> simp [h]

theorem post_v21_creds (c : Client) (gen : Nat → String) (ctr : Nat) (path : String)
    (params : List (String × Json)) (respond : Request → HttpResponse)
    (hat : pyTruthy c.access_token = true) (hsk : pyTruthy c.secret_key = true) :
    post_v21 c gen ctr path params respond =
      (classifyPrivate (respond
        { url := PRIVATE_BASE_URL ++ path
          body := encodePayload (c.access_token.getD "") (gen ctr) params
          contentType := "application/json"
          payloadHeader := pyDecodeUtf8 (encodePayload (c.access_token.getD "") (gen ctr) params)
          signatureHeader := sign (c.secret_key.getD "")
            (encodePayload (c.access_token.getD "") (gen ctr) params) }),
        [{ url := PRIVATE_BASE_URL ++ path
           body := encodePayload (c.access_token.getD "") (gen ctr) params
           contentType := "application/json"
           payloadHeader := pyDecodeUtf8 (encodePayload (c.access_token.getD "") (gen ctr) params)
           signatureHeader := sign (c.secret_key.getD "")
             (encodePayload (c.access_token.getD "") (gen ctr) params) }],
        ctr + 1) := by
  rw [post_v21, if_neg]
  simp [hat, hsk]

theorem classifyPrivate_http_none (resp : HttpResponse)
    (h400 : 400 ≤ resp.status ∧ resp.status < 600) (hb : resp.bodyJson = none) :
    classifyPrivate resp = .exc ⟨false, .str "HTTP 错误", .null, some resp.status⟩ := by
  rw [classifyPrivate, if_pos h400, hb]

theorem classifyPrivate_http_obj (resp : HttpResponse) (m : List (String × Json))
    (h400 : 400 ≤ resp.status ∧ resp.status < 600) (hb : resp.bodyJson = some (.obj m)) :
    classifyPrivate resp =
      .exc ⟨false, pyGetD m "error_msg" (.str "HTTP 错误"), pyGet m "error_code",
        some resp.status⟩ := by
  rw [classifyPrivate, if_pos h400, hb]

theorem classifyPrivate_http_nonobj (resp : HttpResponse) (j : Json)
    (h400 : 400 ≤ resp.status ∧ resp.status < 600) (hb : resp.bodyJson = some j)
    (hj : ∀ m, j ≠ .obj m) :
    classifyPrivate resp = .crash "AttributeError" := by
  rw [classifyPrivate, if_pos h400, hb]
  cases j with
  | obj m => exact absurd rfl (hj m)
  | null => rfl
  | bool b => rfl
  | num n => rfl
  | str s => rfl
  | arr xs => rfl

theorem classifyPrivate_ok_none (resp : HttpResponse)
    (hst : ¬ (400 ≤ resp.status ∧ resp.status < 600)) (hb : resp.bodyJson = none) :
    classifyPrivate resp =
      .exc ⟨false, .str "API 返回了无效的 JSON", .null, some resp.status⟩ := by
  rw [classifyPrivate, if_neg hst, hb]

theorem classifyPrivate_ok_rate (resp : HttpResponse) (m : List (String × Json))
    (hst : ¬ (400 ≤ resp.status ∧ resp.status < 600)) (hb : resp.bodyJson = some (.obj m))
    (herr : pyGet m "result" = .str "error") (hc : pyStr (pyGet m "error_code") = "4") :
    classifyPrivate resp =
      .exc ⟨true, pyGetD m "error_msg" (.str "请求频率过高"), pyGet m "error_code", none⟩ := by
  rw [classifyPrivate, if_neg hst, hb]
  dsimp only
  rw [if_pos herr, if_pos hc]

theorem classifyPrivate_ok_api (resp : HttpResponse) (m : List (String × Json))
    (hst : ¬ (400 ≤ resp.status ∧ resp.status < 600)) (hb : resp.bodyJson = some (.obj m))
    (herr : pyGet m "result" = .str "error") (hc : pyStr (pyGet m "error_code") ≠ "4") :
    classifyPrivate resp =
      .exc ⟨false, pyGetD m "error_msg" (.str "API 错误"), pyGet m "error_code", none⟩ := by
  rw [classifyPrivate, if_neg hst, hb]
  dsimp only
  rw [if_pos herr, if_neg hc]

theorem classifyPublic_never_ratelimit (resp : HttpResponse) (e : CoinoneError)
    (h : classifyPublic resp = .exc e) : e.isRateLimit = false := by
  rw [classifyPublic] at h
  split_ifs at h with h400
  · obtain rfl : (⟨false, .str ("HTTP 错误: " ++ resp.errorText), .null,
        some resp.status⟩ : CoinoneError) = e := by
      exact Outcome.exc.inj h
    rfl
  · revert h
    cases hb : resp.bodyJson with
    | none =>
      intro h
      obtain rfl := Outcome.exc.inj h
      rfl
    | some j =>
      cases j with
      | obj m =>
        intro h
        dsimp only at h
        split_ifs at h
        · obtain rfl := Outcome.exc.inj h
          rfl
      | null => intro h; cases h
      | bool b => intro h; cases h
      | num n => intro h; cases h
      | str s => intro h; cases h
      | arr xs => intro h; cases h

theorem classifyPublic_error_body (resp : HttpResponse) (m : List (String × Json))
    (hst : ¬ (400 ≤ resp.status ∧ resp.status < 600)) (hb : resp.bodyJson = some (.obj m))
    (herr : pyGet m "result" = .str "error") :
    classifyPublic resp =
      .exc ⟨false, pyGetD m "error_msg" (.str "API 错误"), pyGet m "error_code", none⟩ := by
  rw [classifyPublic, if_neg hst, hb]
  dsimp only
  rw [if_pos herr]

theorem classifyPrivate_rate_characterization (resp : HttpResponse) (e : CoinoneError)
    (h : classifyPrivate resp = .exc e) (hrl : e.isRateLimit = true) :
    (¬ (400 ≤ resp.status ∧ resp.status < 600)) ∧
    ∃ m, resp.bodyJson = some (.obj m) ∧ pyGet m "result" = .str "error" ∧
      pyStr (pyGet m "error_code") = "4" := by
  rw [classifyPrivate] at h
  split_ifs at h with h400
  · exfalso
    revert h
    cases hb : resp.bodyJson with
    | none =>
      intro h
      obtain rfl := Outcome.exc.inj h
      simp at hrl
    | some j =>
      cases j with
      | obj m =>
        intro h
        obtain rfl := Outcome.exc.inj h
        simp at hrl
      | null => intro h; cases h
      | bool b => intro h; cases h
      | num n => intro h; cases h
      | str s => intro h; cases h
      | arr xs => intro h; cases h
  · refine ⟨h400, ?_⟩
    revert h
    cases hb : resp.bodyJson with
    | none =>
      intro h
      obtain rfl := Outcome.exc.inj h
      simp at hrl
    | some j =>
      cases j with
      | obj m =>
        intro h
        dsimp only at h
        by_cases he : pyGet m "result" = .str "error"
        · rw [if_pos he] at h
          by_cases hc : pyStr (pyGet m "error_code") = "4"
          · exact ⟨m, rfl, he, hc⟩
          · rw [if_neg hc] at h
            obtain rfl := Outcome.exc.inj h
            simp at hrl
        · rw [if_neg he] at h
          cases h
      | null => intro h; cases h
      | bool b => intro h; cases h
      | num n => intro h; cases h
      | str s => intro h; cases h
      | arr xs => intro h; cases h

theorem classifyPublic_ok_none (resp : HttpResponse)
    (hst : ¬ (400 ≤ resp.status ∧ resp.status < 600)) (hb : resp.bodyJson = none) :
    classifyPublic resp =
      .exc ⟨false, .str "API 返回了无效的 JSON", .null, some resp.status⟩ := by
  rw [classifyPublic, if_neg hst, hb]

theorem escChar_high (ch : Char) (h : 128 ≤ ch.toNat) : escChar ch = [ch] := by
  have h1 : ch ≠ '"' := by intro hh; subst hh; revert h; decide
  have h2 : ch ≠ '\\' := by intro hh; subst hh; revert h; decide
  have h3 : ch ≠ '\n' := by intro hh; subst hh; revert h; decide
  have h4 : ch ≠ '\t' := by intro hh; subst hh; revert h; decide
  have h5 : ch ≠ '\r' := by intro hh; subst hh; revert h; decide
  have h6 : ch ≠ Char.ofNat 8 := by
    intro hh
    rw [hh] at h
    revert h
    decide
  have h7 : ch ≠ Char.ofNat 12 := by
    intro hh
    rw [hh] at h
    revert h
    decide
  have h8 : ¬ ch.toNat < 32 := by omega
  simp only [escChar]
  rw [if_neg h1, if_neg h2, if_neg h3, if_neg h4, if_neg h5, if_neg h6, if_neg h7, if_neg h8]

/-! Validation of the hash pipeline against published vectors (FIPS 180-4 /
RFC 4231), tying the derived constants and the compression function to the
real SHA-512. -/

set_option maxRecDepth 1000000 in
theorem sha512_empty_vector : hexLower (sha512 []) =
    "cf83e1357eefb8bdf1542850d66d8007d620e4050b5715dc83f4a921d36ce9ce47d0d13c5d85f2b0ff8318d2877eec2f63b931bd47417a81a538327af927da3e" := by
  decide

set_option maxRecDepth 1000000 in
theorem sha512_abc_vector : hexLower (sha512 (utf8Encode "abc")) =
    "ddaf35a193617abacc417349ae20413112e6fa4e89a97ea20a9eeee64b55d39a2192992a274fc1a836ba3c23a3feebbd454d4423643ce80e2a9ac94fa54ca49f" := by
  decide

set_option maxRecDepth 1000000 in
theorem hmac_rfc4231_tc1_vector :
    hexLower (hmacSha512 (List.replicate 20 11) (utf8Encode "Hi There")) =
    "87aa7cdea5ef619d4ff0b4241a1d6cb02379f4e2ce4ec2787ad0b30545e17cdedaa833b7d6b8a702038b274eaea3f4e4be9d914eeb61f1702e696c203a126854" := by
  decide

set_option maxRecDepth 1000000 in
theorem sign_vector : sign "key" (utf8Encode "payload") =
    "185beceee65a5ed7e43f7cc98530bfab1b0d00679488a47225255d04594fd7f17ed6908e7a08df57ac14c9e56c2fdef83ee9adaf9df2ff9f61465898c5d78c00" := by
  decide

/-! The ten claims. -/

/-- C1: Every private-call response with a successful HTTP status whose JSON
body is a mapping with result == "error" is dispatched on error_code: the
Python string form "4" raises the rate-limit variant
(CoinoneRateLimitError), any other code the general API-error variant; both
carry the server-supplied error_msg (or the fallback message) and the
error_code. -/
theorem c1_private_result_error_dispatch
    (c : Client) (gen : Nat → String) (ctr : Nat) (path : String)
    (params : List (String × Json)) (resp : HttpResponse) (m : List (String × Json))
    (hat : pyTruthy c.access_token = true) (hsk : pyTruthy c.secret_key = true)
    (hst : ¬ (400 ≤ resp.status ∧ resp.status < 600))
    (hb : resp.bodyJson = some (.obj m))
    (herr : pyGet m "result" = .str "error") :
    (pyStr (pyGet m "error_code") = "4" →
      (post_v21 c gen ctr path params (fun _ => resp)).1 =
        .exc ⟨true, pyGetD m "error_msg" (.str "请求频率过高"), pyGet m "error_code", none⟩) ∧
    (pyStr (pyGet m "error_code") ≠ "4" →
      (post_v21 c gen ctr path params (fun _ => resp)).1 =
        .exc ⟨false, pyGetD m "error_msg" (.str "API 错误"), pyGet m "error_code", none⟩) := by
  rw [post_v21_creds c gen ctr path params _ hat hsk]
  constructor
  · intro hc
    exact classifyPrivate_ok_rate resp m hst hb herr hc
  · intro hc
    exact classifyPrivate_ok_api resp m hst hb herr hc

theorem c1_witness :
    (pyStr (pyGet [("result", Json.str "error"), ("error_code", Json.str "4"),
        ("error_msg", Json.str "rate limit")] "error_code") = "4" →
      (post_v21 ⟨some "tok", some "sk"⟩ (fun _ => "n") 0 "/v2.1/order" []
        (fun _ => ⟨200, some (.obj [("result", Json.str "error"),
          ("error_code", Json.str "4"), ("error_msg", Json.str "rate limit")]), [], ""⟩)).1 =
        .exc ⟨true, pyGetD [("result", Json.str "error"), ("error_code", Json.str "4"),
          ("error_msg", Json.str "rate limit")] "error_msg" (.str "请求频率过高"),
          pyGet [("result", Json.str "error"), ("error_code", Json.str "4"),
            ("error_msg", Json.str "rate limit")] "error_code", none⟩) ∧
    (pyStr (pyGet [("result", Json.str "error"), ("error_code", Json.str "4"),
        ("error_msg", Json.str "rate limit")] "error_code") ≠ "4" →
      (post_v21 ⟨some "tok", some "sk"⟩ (fun _ => "n") 0 "/v2.1/order" []
        (fun _ => ⟨200, some (.obj [("result", Json.str "error"),
          ("error_code", Json.str "4"), ("error_msg", Json.str "rate limit")]), [], ""⟩)).1 =
        .exc ⟨false, pyGetD [("result", Json.str "error"), ("error_code", Json.str "4"),
          ("error_msg", Json.str "rate limit")] "error_msg" (.str "API 错误"),
          pyGet [("result", Json.str "error"), ("error_code", Json.str "4"),
            ("error_msg", Json.str "rate limit")] "error_code", none⟩) :=
  c1_private_result_error_dispatch ⟨some "tok", some "sk"⟩ (fun _ => "n") 0 "/v2.1/order" []
    ⟨200, some (.obj [("result", Json.str "error"), ("error_code", Json.str "4"),
      ("error_msg", Json.str "rate limit")]), [], ""⟩
    [("result", Json.str "error"), ("error_code", Json.str "4"),
      ("error_msg", Json.str "rate limit")]
    (by decide) (by decide) (by decide) rfl (by decide)

/-- C2: The signing step is a pure deterministic function of the secret key
and the encoded payload bytes: it is exactly the lowercase hexadecimal
rendering of the HMAC-SHA512 digest of the payload keyed by the UTF-8 bytes
of the secret key, a 128-character string over 0-9 and lowercase a-f. -/
theorem c2_sign_lowercase_hex_hmac (key : String) (payload : List Nat) :
    sign key payload = hexLower (hmacSha512 (utf8Encode key) payload) ∧
    (sign key payload).length = 128 ∧
    (∀ c ∈ (sign key payload).data,
      (48 ≤ c.toNat ∧ c.toNat ≤ 57) ∨ (97 ≤ c.toNat ∧ c.toNat ≤ 102)) := by
  refine ⟨rfl, ?_, ?_⟩
  · rw [sign, hexLower_length, hmacSha512_length]
  · intro c hc
    exact hexLower_chars _ (hmacSha512_lt_256 _ _) c hc

/-- C3: With valid credentials, one request is issued whose body is exactly
the base64 encoding of the UTF-8 bytes of the compact JSON serialization of
the params with access_token and nonce injected in insertion order; the
payload header carries the same bytes as text, the signature header is the
signing function applied to exactly those bytes, and characters at or above
0x80 are serialized unescaped. -/
theorem c3_payload_transmitted_and_signed
    (c : Client) (gen : Nat → String) (ctr : Nat) (path : String)
    (params : List (String × Json)) (respond : Request → HttpResponse)
    (hat : pyTruthy c.access_token = true) (hsk : pyTruthy c.secret_key = true) :
    ∃ req : Request,
      post_v21 c gen ctr path params respond =
        (classifyPrivate (respond req), [req], ctr + 1) ∧
      req.body = base64Encode (utf8Encode (jsonDumps (.obj
        (dictSet (dictSet params "access_token" (.str (c.access_token.getD "")))
          "nonce" (.str (gen ctr)))))) ∧
      req.url = PRIVATE_BASE_URL ++ path ∧
      req.contentType = "application/json" ∧
      utf8Encode req.payloadHeader = req.body ∧
      req.signatureHeader = sign (c.secret_key.getD "") req.body ∧
      (∀ ch : Char, 128 ≤ ch.toNat → escChar ch = [ch]) := by
  refine ⟨_, post_v21_creds c gen ctr path params respond hat hsk, rfl, rfl, rfl, ?_, rfl,
    escChar_high⟩
  exact utf8Encode_pyDecodeUtf8 _
    (base64Encode_lt_128 _ (fun b hb => utf8Encode_lt_256 _ b hb))

theorem c3_witness :
    ∃ req : Request,
      post_v21 ⟨some "tok", some "sk"⟩ (fun _ => "n1") 7 "/v2.1/account/balance/all"
        [("quote_currency", Json.str "KRW")] (fun _ => ⟨200, some (.obj []), [], ""⟩) =
        (classifyPrivate ((fun _ => (⟨200, some (.obj []), [], ""⟩ : HttpResponse)) req),
          [req], 7 + 1) ∧
      req.body = base64Encode (utf8Encode (jsonDumps (.obj
        (dictSet (dictSet [("quote_currency", Json.str "KRW")] "access_token"
          (.str ((some "tok").getD ""))) "nonce" (.str ((fun _ => "n1") 7)))))) ∧
      req.url = PRIVATE_BASE_URL ++ "/v2.1/account/balance/all" ∧
      req.contentType = "application/json" ∧
      utf8Encode req.payloadHeader = req.body ∧
      req.signatureHeader = sign ((some "sk").getD "") req.body ∧
      (∀ ch : Char, 128 ≤ ch.toNat → escChar ch = [ch]) :=
  c3_payload_transmitted_and_signed ⟨some "tok", some "sk"⟩ (fun _ => "n1") 7
    "/v2.1/account/balance/all" [("quote_currency", Json.str "KRW")]
    (fun _ => ⟨200, some (.obj []), [], ""⟩) (by decide) (by decide)

/-- C4: A private call attempted with an empty or absent access token or
secret key fails immediately with the configuration error (the base API
error carrying the credentials message and neither code nor HTTP status):
no request is issued and the nonce counter is untouched, so no payload is
constructed and no network call is made. -/
theorem c4_missing_credentials_no_network
    (c : Client) (gen : Nat → String) (ctr : Nat) (path : String)
    (params : List (String × Json)) (respond : Request → HttpResponse)
    (h : pyTruthy c.access_token = false ∨ pyTruthy c.secret_key = false) :
    post_v21 c gen ctr path params respond =
      (.exc ⟨false, .str "调用私有 API 需要提供 access_token 和 secret_key", .null, none⟩,
        [], ctr) :=
  post_v21_no_creds c gen ctr path params respond h

theorem c4_witness :
    post_v21 ⟨some "", some "sk"⟩ (fun _ => "n") 3 "/v2.1/order" []
      (fun _ => ⟨200, some (.obj []), [], ""⟩) =
      (.exc ⟨false, .str "调用私有 API 需要提供 access_token 和 secret_key", .null, none⟩,
        [], 3) :=
  c4_missing_credentials_no_network ⟨some "", some "sk"⟩ (fun _ => "n") 3 "/v2.1/order" []
    (fun _ => ⟨200, some (.obj []), [], ""⟩) (Or.inl (by decide))

/-- C5 (counterexample): it is not true that for every parameter mapping
two different nonces always give two different signatures: by counting,
some pair of distinct nonce strings collides on the 512-bit HMAC digest and
hence on the signature. -/
theorem c5_signature_collision_counterexample :
    ¬ (∀ (sk tok n1 n2 : String) (P : List (String × Json)), n1 ≠ n2 →
        sign sk (encodePayload tok n1 P) ≠ sign sk (encodePayload tok n2 P)) := by
  intro hall
  obtain ⟨n1, n2, hne, heq⟩ := hmac_nonce_collision "k" "t" []
  exact hall "k" "t" n1 n2 [] hne (congrArg hexLower heq)

/-- C5 (amended): for every parameter mapping, two different nonces give
two different encoded payloads; the signatures differ exactly when the
HMAC-SHA512 digests of the two payloads differ (which a hash collision can
defeat in principle). -/
theorem c5_distinct_nonces_distinct_payloads (tok sk n1 n2 : String)
    (P : List (String × Json)) (h : n1 ≠ n2) :
    encodePayload tok n1 P ≠ encodePayload tok n2 P ∧
    (sign sk (encodePayload tok n1 P) ≠ sign sk (encodePayload tok n2 P) ↔
      hmacSha512 (utf8Encode sk) (encodePayload tok n1 P) ≠
        hmacSha512 (utf8Encode sk) (encodePayload tok n2 P)) := by
  refine ⟨fun hh => h (encodePayload_nonce_injective tok n1 n2 P hh), ?_, ?_⟩
  · intro hs hd
    exact hs (congrArg hexLower hd)
  · intro hd hs
    apply hd
    exact hexLower_injective _ _ (hmacSha512_lt_256 _ _) (hmacSha512_lt_256 _ _) hs

theorem c5_witness :
    encodePayload "tok" "n1" [] ≠ encodePayload "tok" "n2" [] ∧
    (sign "sk" (encodePayload "tok" "n1" []) ≠ sign "sk" (encodePayload "tok" "n2" []) ↔
      hmacSha512 (utf8Encode "sk") (encodePayload "tok" "n1" []) ≠
        hmacSha512 (utf8Encode "sk") (encodePayload "tok" "n2" [])) :=
  c5_distinct_nonces_distinct_payloads "tok" "sk" "n1" "n2" [] (by decide)

/-- C6: base64-decoding and then JSON-parsing an encoded payload built from
a parameter mapping that does not already use the injected keys recovers
exactly the original mapping followed by the injected access_token and
nonce fields. -/
theorem c6_decode_roundtrip (token nonce : String) (params : List (String × Json))
    (h1 : "access_token" ∉ params.map Prod.fst) (h2 : "nonce" ∉ params.map Prod.fst) :
    decodePayload (encodePayload token nonce params) =
      some (.obj (params ++ [("access_token", .str token), ("nonce", .str nonce)])) := by
  rw [decodePayload_encodePayload]
  rw [dictSet_append params "access_token" (.str token) h1]
  have h3 : "nonce" ∉ (params ++ [("access_token", Json.str token)]).map Prod.fst := by
    intro hmem
    rw [List.map_append] at hmem
    rcases List.mem_append.mp hmem with hmem | hmem
    · exact h2 hmem
    · simp only [List.map_cons, List.map_nil, List.mem_singleton] at hmem
      exact absurd hmem (by decide)
  rw [dictSet_append _ "nonce" (.str nonce) h3]
  rw [List.append_assoc]
  rfl

theorem c6_witness :
    decodePayload (encodePayload "tok" "e3b2a1" [("quote_currency", Json.str "KRW"),
      ("limit", Json.num 10)]) =
      some (.obj [("quote_currency", Json.str "KRW"), ("limit", Json.num 10),
        ("access_token", .str "tok"), ("nonce", .str "e3b2a1")]) :=
  c6_decode_roundtrip "tok" "e3b2a1" [("quote_currency", Json.str "KRW"),
    ("limit", Json.num 10)] (by decide) (by decide)

/-- C7 (counterexample): a private-call response with HTTP status 500 whose
body is valid JSON but not a mapping (here the empty array) does not raise
an error carrying the body's error_msg and error_code, nor a transport
error: the call dies with an uncaught AttributeError from j.get on a
non-dict. -/
theorem c7_nonmapping_error_body_crash :
    (post_v21 ⟨some "tok", some "sk"⟩ (fun _ => "n") 0 "/v2.1/order" []
      (fun _ => ⟨500, some (.arr []), [], ""⟩)).1 = .crash "AttributeError" := by
  rfl

/-- C7 (amended): on a non-success HTTP status the client parses the body
as JSON; a mapping body raises an error with the body's error_msg and
error_code plus the HTTP status, an unparsable body raises the generic
transport error carrying only the HTTP status, and a body parsing to a
non-mapping JSON value escapes as an uncaught AttributeError. -/
theorem c7_http_error_classification
    (c : Client) (gen : Nat → String) (ctr : Nat) (path : String)
    (params : List (String × Json)) (resp : HttpResponse)
    (hat : pyTruthy c.access_token = true) (hsk : pyTruthy c.secret_key = true)
    (h400 : 400 ≤ resp.status ∧ resp.status < 600) :
    (resp.bodyJson = none →
      (post_v21 c gen ctr path params (fun _ => resp)).1 =
        .exc ⟨false, .str "HTTP 错误", .null, some resp.status⟩) ∧
    (∀ m, resp.bodyJson = some (.obj m) →
      (post_v21 c gen ctr path params (fun _ => resp)).1 =
        .exc ⟨false, pyGetD m "error_msg" (.str "HTTP 错误"), pyGet m "error_code",
          some resp.status⟩) ∧
    (∀ j, resp.bodyJson = some j → (∀ m, j ≠ .obj m) →
      (post_v21 c gen ctr path params (fun _ => resp)).1 = .crash "AttributeError") := by
  rw [post_v21_creds c gen ctr path params _ hat hsk]
  refine ⟨?_, ?_, ?_⟩
  · intro hb
    exact classifyPrivate_http_none resp h400 hb
  · intro m hb
    exact classifyPrivate_http_obj resp m h400 hb
  · intro j hb hj
    exact classifyPrivate_http_nonobj resp j h400 hb hj

theorem c7_witness :
    ((⟨500, none, [], ""⟩ : HttpResponse).bodyJson = none →
      (post_v21 ⟨some "tok", some "sk"⟩ (fun _ => "n") 0 "/v2.1/order" []
        (fun _ => ⟨500, none, [], ""⟩)).1 =
        .exc ⟨false, .str "HTTP 错误", .null, some 500⟩) ∧
    (∀ m, (⟨500, none, [], ""⟩ : HttpResponse).bodyJson = some (.obj m) →
      (post_v21 ⟨some "tok", some "sk"⟩ (fun _ => "n") 0 "/v2.1/order" []
        (fun _ => ⟨500, none, [], ""⟩)).1 =
        .exc ⟨false, pyGetD m "error_msg" (.str "HTTP 错误"), pyGet m "error_code",
          some 500⟩) ∧
    (∀ j, (⟨500, none, [], ""⟩ : HttpResponse).bodyJson = some j →
      (∀ m, j ≠ .obj m) →
      (post_v21 ⟨some "tok", some "sk"⟩ (fun _ => "n") 0 "/v2.1/order" []
        (fun _ => ⟨500, none, [], ""⟩)).1 = .crash "AttributeError") :=
  c7_http_error_classification ⟨some "tok", some "sk"⟩ (fun _ => "n") 0 "/v2.1/order" []
    ⟨500, none, [], ""⟩ (by decide) (by decide) (by decide)

/-- C8: A response with a successful HTTP status whose body is not valid
JSON raises the JSON-format failure on both the private and the public
path, carrying the fixed format message and the HTTP status, no body and
headers are returned, and the raised error differs from the transport error
of the same status. -/
theorem c8_invalid_json_format_error
    (c : Client) (gen : Nat → String) (ctr : Nat) (path : String)
    (params : List (String × Json)) (resp : HttpResponse)
    (hat : pyTruthy c.access_token = true) (hsk : pyTruthy c.secret_key = true)
    (hst : ¬ (400 ≤ resp.status ∧ resp.status < 600)) (hb : resp.bodyJson = none) :
    (post_v21 c gen ctr path params (fun _ => resp)).1 =
      .exc ⟨false, .str "API 返回了无效的 JSON", .null, some resp.status⟩ ∧
    classifyPublic resp =
      .exc ⟨false, .str "API 返回了无效的 JSON", .null, some resp.status⟩ ∧
    (∀ b h, (post_v21 c gen ctr path params (fun _ => resp)).1 ≠ Outcome.ok b h) ∧
    (⟨false, .str "API 返回了无效的 JSON", .null, some resp.status⟩ : CoinoneError) ≠
      ⟨false, .str "HTTP 错误", .null, some resp.status⟩ := by
  rw [post_v21_creds c gen ctr path params _ hat hsk]
  have hpriv := classifyPrivate_ok_none resp hst hb
  refine ⟨hpriv, classifyPublic_ok_none resp hst hb, ?_, ?_⟩
  · intro b hh
    rw [hpriv]
    intro hcontra
    cases hcontra
  · intro hcontra
    rw [CoinoneError.mk.injEq] at hcontra
    exact absurd (Json.str.inj hcontra.2.1) (by decide)

theorem c8_witness :
    (post_v21 ⟨some "tok", some "sk"⟩ (fun _ => "n") 0 "/v2.1/order" []
      (fun _ => ⟨200, none, [], ""⟩)).1 =
      .exc ⟨false, .str "API 返回了无效的 JSON", .null, some 200⟩ ∧
    classifyPublic ⟨200, none, [], ""⟩ =
      .exc ⟨false, .str "API 返回了无效的 JSON", .null, some 200⟩ ∧
    (∀ b h, (post_v21 ⟨some "tok", some "sk"⟩ (fun _ => "n") 0 "/v2.1/order" []
      (fun _ => ⟨200, none, [], ""⟩)).1 ≠ Outcome.ok b h) ∧
    (⟨false, .str "API 返回了无效的 JSON", .null, some 200⟩ : CoinoneError) ≠
      ⟨false, .str "HTTP 错误", .null, some 200⟩ :=
  c8_invalid_json_format_error ⟨some "tok", some "sk"⟩ (fun _ => "n") 0 "/v2.1/order" []
    ⟨200, none, [], ""⟩ (by decide) (by decide) (by decide) rfl

/-- C9: The store-level payload construction copies the caller's dict
before injecting access_token and nonce: after the call the caller's dict
is exactly what it was, the produced bytes are the pure encoding of its old
value, and a key absent from the caller's dict is still absent
afterwards. -/
theorem c9_caller_params_unchanged (st : Store) (r : Nat) (token nonce : String)
    (hr : r < st.dicts.length) :
    (encodePayloadSt st r token nonce).1.read r = st.read r ∧
    (encodePayloadSt st r token nonce).2 = encodePayload token nonce (st.read r) ∧
    (∀ k, k ∉ (st.read r).map Prod.fst →
      k ∉ ((encodePayloadSt st r token nonce).1.read r).map Prod.fst) := by
  obtain ⟨h1, h2⟩ := encodePayloadSt_frame st r token nonce hr
  refine ⟨h1, h2, ?_⟩
  intro k hk
  rw [h1]
  exact hk

theorem c9_witness :
    (encodePayloadSt ⟨[[("quote_currency", Json.str "KRW")]]⟩ 0 "tok" "n1").1.read 0 =
      (⟨[[("quote_currency", Json.str "KRW")]]⟩ : Store).read 0 ∧
    (encodePayloadSt ⟨[[("quote_currency", Json.str "KRW")]]⟩ 0 "tok" "n1").2 =
      encodePayload "tok" "n1" ((⟨[[("quote_currency", Json.str "KRW")]]⟩ : Store).read 0) ∧
    (∀ k, k ∉ ((⟨[[("quote_currency", Json.str "KRW")]]⟩ : Store).read 0).map Prod.fst →
      k ∉ ((encodePayloadSt ⟨[[("quote_currency", Json.str "KRW")]]⟩ 0 "tok"
        "n1").1.read 0).map Prod.fst) :=
  c9_caller_params_unchanged ⟨[[("quote_currency", Json.str "KRW")]]⟩ 0 "tok" "n1"
    (by decide)

/-- C10: The rate-limit variant arises only from the private path on a
successful HTTP status with a mapping body flagging result == "error" and
an error_code stringifying to "4"; the public path never raises the
rate-limit variant, and a private non-success status with a mapping error
body raises the general API error with the HTTP status, never the
rate-limit variant. -/
theorem c10_ratelimit_asymmetry :
    (∀ resp e, classifyPrivate resp = .exc e → e.isRateLimit = true →
      (¬ (400 ≤ resp.status ∧ resp.status < 600)) ∧
      ∃ m, resp.bodyJson = some (.obj m) ∧ pyGet m "result" = .str "error" ∧
        pyStr (pyGet m "error_code") = "4") ∧
    (∀ resp e, classifyPublic resp = .exc e → e.isRateLimit = false) ∧
    (∀ resp m, 400 ≤ resp.status → resp.status < 600 →
      resp.bodyJson = some (.obj m) →
      classifyPrivate resp =
        .exc ⟨false, pyGetD m "error_msg" (.str "HTTP 错误"), pyGet m "error_code",
          some resp.status⟩) :=
  ⟨classifyPrivate_rate_characterization,
   classifyPublic_never_ratelimit,
   fun resp m h1 h2 hb => classifyPrivate_http_obj resp m ⟨h1, h2⟩ hb⟩

theorem c10_witness :
    ((¬ (400 ≤ (200 : Nat) ∧ (200 : Nat) < 600)) ∧
      ∃ m, (⟨200, some (.obj [("result", Json.str "error"),
          ("error_code", Json.str "4")]), [], ""⟩ : HttpResponse).bodyJson =
          some (.obj m) ∧
        pyGet m "result" = .str "error" ∧ pyStr (pyGet m "error_code") = "4") ∧
    ((⟨false, Json.str "API 错误", Json.str "4", none⟩ : CoinoneError).isRateLimit = false) :=
  ⟨c10_ratelimit_asymmetry.1 ⟨200, some (.obj [("result", Json.str "error"),
      ("error_code", Json.str "4")]), [], ""⟩
    ⟨true, Json.str "请求频率过高", Json.str "4", none⟩ (by decide) rfl,
   c10_ratelimit_asymmetry.2.1 ⟨200, some (.obj [("result", Json.str "error"),
      ("error_code", Json.str "4")]), [], ""⟩
    ⟨false, Json.str "API 错误", Json.str "4", none⟩ (by decide)⟩

end Coinone
